import Mathlib

/-!
Verification of `combine_table.py` (terra_utils).

The script combines two or more Terra sample tables loaded with pandas:
it aligns them on the union of their first-column identifiers, merges a
fixed list of metadata columns by taking the first non-missing value,
repairs library-name columns by borrowing the last valid value across
tables, and concatenates fastq path-list strings.

The embedding below models a pandas DataFrame as a column-major table of
cells.  A cell is either the missing marker `NaN` (`Val.na`, which also
stands for a stored Python `None`) or a string (`Val.str`, a list of
characters).  Numeric cells are represented by their string form: the
script only ever inspects cells through `pd.isna`, string concatenation
and `str(...)` substring tests.  Row labels (sample identifiers) are
modeled as character lists; a `NaN` label is represented by its string
form "nan".  Fallible pandas operations (column lookup `KeyError`,
positional `IndexError`, reindexing a duplicated index `ValueError`)
return `Except PyError`.
-/

/-- A pandas cell: `na` is the missing marker (NaN, or a stored Python
`None`); `str` is a string cell given by its characters. -/
inductive Val
  | na
  | str (s : List Char)
deriving DecidableEq

/-- Embeds `pd.isna` on a cell. -/
def isNa : Val → Bool
  | .na => true
  | .str _ => false

/-- Embeds Python `str(val)`: a string cell is itself, and `str(nan)`
is the three characters "nan". -/
def strForm : Val → List Char
  | .na => "nan".data
  | .str s => s

/-- `isPre pat s` holds when `pat` is an initial segment of `s`. -/
def isPre : List Char → List Char → Bool
  | [], _ => true
  | _ :: _, [] => false
  | a :: s, b :: t => a = b && isPre s t

/-- Embeds the Python substring test `pat in s`. -/
def hasSub (pat : List Char) : List Char → Bool
  | [] => pat.isEmpty
  | c :: t => isPre pat (c :: t) || hasSub pat t

/-- Embeds `isLib` (combine_table.py lines 73-79): convert the value to
its string form and test whether it contains "i5" or "Ad1".  The
assignment `val = str(str)` in the source's `True` branch has no effect
on the returned value and is not modeled. -/
def isLib (v : Val) : Bool :=
  hasSub "i5".data (strForm v) || hasSub "Ad1".data (strForm v)

/-- Embeds the scanning loop of `find_lib` (combine_table.py lines
93-104): start from `None`, overwrite with every valid cell met in
table order, so the last valid cell wins.  `none` models the Python
`None` returned when no table has a valid value (every value passing
`isLib` contains "i5" or "Ad1", hence is a non-empty string and truthy,
so the `if lib:` test in the source is equivalent to `lib is not None`). -/
def find_lib (cells : List Val) : Option Val :=
  cells.foldl (fun lib c => if isLib c then some c else lib) none

/-- Embeds `bfill(axis=1)` restricted to one row of the concatenated
frame (combine_table.py line 50): every missing entry is replaced by
the next non-missing entry to its right, if any. -/
def bfillRow : List Val → List Val
  | [] => []
  | v :: r => (if isNa v then (bfillRow r).headD .na else v) :: bfillRow r

/-- Embeds `pd.concat([tab[col] for tab in open_tables], axis=1)
.bfill(axis=1).iloc[:, 0]` for one sample: the row of per-table cells
is back-filled and its first entry taken. -/
def fillMerge (cells : List Val) : Val := (bfillRow cells).headD .na

/-! ### Fastq string algebra (combine_table.py lines 62-69) -/

/-- The literal `"[\"\"]"` the script substitutes for a missing fastq
cell. -/
def emptyMarker : List Char := "[\"\"]".data

/-- Embeds `str.replace("[\"\"]", "", regex=False)` applied to a cell:
Python scans left to right and removes each non-overlapping occurrence
of the four characters `[""]`. -/
def stripEmpty : List Char → List Char
  | '[' :: '"' :: '"' :: ']' :: rest => stripEmpty rest
  | c :: rest => c :: stripEmpty rest
  | [] => []

/-- Embeds `str.replace("][", ",", regex=False)` applied to a cell:
each non-overlapping occurrence of `][` becomes a comma. -/
def fuseBrackets : List Char → List Char
  | ']' :: '[' :: rest => ',' :: fuseBrackets rest
  | c :: rest => c :: fuseBrackets rest
  | [] => []

/-- Embeds `lambda x: "[\"\"]" if pd.isna(x) else x` (line 64). -/
def naToMarker (v : Val) : Val := if isNa v then .str emptyMarker else v

/-- String concatenation of two cells, as pandas `Series.__add__` does
elementwise on line 68; a missing operand yields a missing result. -/
def concatVal : Val → Val → Val
  | .str a, .str b => .str (a ++ b)
  | _, _ => .na

/-- One iteration of the fastq merge loop (lines 67-69) on a single
cell: concatenate, remove `[""]` markers, fuse `][` boundaries. -/
def fastqStepV (a b : Val) : Val :=
  match concatVal a b with
  | .na => .na
  | .str s => .str (fuseBrackets (stripEmpty s))

/-- The fastq merge (lines 62-69) for one sample: the cell of every table is
first mapped through `naToMarker`, then the first table's cell is
iteratively extended by the cell of each later table via `fastqStepV`. -/
def fastqMergeCells : List Val → Val
  | [] => .na
  | c :: rest => (rest.map naToMarker).foldl fastqStepV (naToMarker c)

/-! Specification-side rendering of fastq path lists: the bracketed,
comma-separated list string `["p1","p2",...]` the spec says a merged
cell should hold. -/

/-- `"p"`: one path wrapped in double quotes. -/
def quoteP (p : List Char) : List Char := '"' :: (p ++ ['"'])

/-- Continuation of a rendered list: `,"p1","p2"...` for each later path. -/
def restB : List (List Char) → List Char
  | [] => []
  | p :: ps => ',' :: (quoteP p ++ restB ps)

/-- Interior of a rendered list: `"p0","p1",...` . -/
def bodyP : List (List Char) → List Char
  | [] => []
  | p :: ps => quoteP p ++ restB ps

/-- A bracketed, comma-separated list of quoted paths, e.g.
`["a.fq","b.fq"]`. -/
def renderPaths (ps : List (List Char)) : List Char := '[' :: (bodyP ps ++ [']'])

/-- A well-formed fastq path: non-empty and free of the structural
characters `[`, `]`, `"` that drive the string splicing in the script. -/
def goodPathB (p : List Char) : Bool :=
  (!p.isEmpty) && p.all (fun c => decide (c ≠ '[') && decide (c ≠ ']') && decide (c ≠ '"'))

/-- The fastq cell of one table for one sample, before alignment artifacts:
either missing or a non-empty list of paths. -/
def cellP : Option (List (List Char)) → Val
  | none => .na
  | some ps => .str (renderPaths ps)

/-- A well-formed per-table fastq cell: missing, or a non-empty list of
well-formed paths. -/
def goodCellB : Option (List (List Char)) → Bool
  | none => true
  | some ps => (!ps.isEmpty) && ps.all goodPathB

/-- All paths contributed by the given per-table cells, in table order,
missing cells contributing nothing. -/
def collectP (l : List (Option (List (List Char)))) : List (List Char) :=
  (l.filterMap id).flatten

/-! ### Entity-name derivation (combine_table.py lines 109-112) -/

/-- Embeds Python `str.lstrip(chars)`: drop leading characters that are
members of the character set `t`. -/
def lstripSet (t : List Char) : List Char → List Char
  | [] => []
  | c :: r => if c ∈ t then lstripSet t r else c :: r

/-- Embeds Python `str.strip(chars)`: drop the leading and trailing
characters that are members of the character set `t`.  Note Python
treats the argument as a set of characters, not a literal prefix or
suffix. -/
def stripSet (t s : List Char) : List Char :=
  (lstripSet t (lstripSet t s).reverse).reverse

/-- The digits accepted by the regex character class `[1-9]`. -/
def digits19 : List Char := ['1', '2', '3', '4', '5', '6', '7', '8', '9']

/-- Embeds `re.sub("_L00[1-9]", "", s)`: scan left to right, removing
each non-overlapping match of `_L00` followed by one digit 1-9; on a
failed match the scan advances one character. -/
def subL00 : List Char → List Char
  | '_' :: 'L' :: '0' :: '0' :: d :: r2 =>
    if d ∈ digits19 then subL00 r2
    else '_' :: subL00 ('L' :: '0' :: '0' :: d :: r2)
  | c :: rest => c :: subL00 rest
  | [] => []

/-- Embeds the derivation of `entity_name` in `main` (lines 109-112)
when no name is supplied:
`res.columns[0].strip("entity:").strip("_id")` followed by
`re.sub("_L00[1-9]", "", ...)`. -/
def entity_name (c0 : List Char) : List Char :=
  subL00 (stripSet "_id".data (stripSet "entity:".data c0))

/-- Modelled from the spec: the naming rule as the specification words
it — remove a literal `entity:` prefix if present. -/
def dropLitPre (p s : List Char) : List Char :=
  if isPre p s then s.drop p.length else s

/-- Modelled from the spec: remove a literal `_id` suffix if present. -/
def dropLitSuf (suf s : List Char) : List Char :=
  (dropLitPre suf.reverse s.reverse).reverse

/-- Modelled from the spec: strip a literal `entity:` prefix, a literal
`_id` suffix, and every `_L00` + digit 1-9 occurrence. -/
def entity_name_literal (c0 : List Char) : List Char :=
  subL00 (dropLitSuf "_id".data (dropLitPre "entity:".data c0))

/-! ### The DataFrame pipeline (combine_table.py lines 20-71) -/

/-- The Python exceptions the script can raise: positional lookup
failure (`IndexError`), column lookup failure (`KeyError col`), and
the pandas `ValueError` for reindexing a duplicated index. -/
inductive PyError
  | indexError
  | keyError (col : String)
  | valueError
deriving DecidableEq

/-- A pandas DataFrame, column-major: `cols` are the column names in
order, `index` the row labels in order, and `data` the columns (one
list of cells per column name, in the same order). -/
structure DF where
  cols : List String
  index : List (List Char)
  data : List (List Val)
deriving DecidableEq

/-- Position of the first occurrence of `x` in a list, if any. -/
def posOf {α : Type} [DecidableEq α] (x : α) : List α → Option Nat
  | [] => none
  | y :: t => if y = x then some 0 else (posOf x t).map (· + 1)

/-- The cells of column `col`, or `[]` when absent (total helper used
where presence is already established). -/
def getColD (t : DF) (col : String) : List Val :=
  match posOf col t.cols with
  | some p => t.data.getD p []
  | none => []

/-- Reading `t[col]`: `KeyError` when the column is absent. -/
def getColE (t : DF) (col : String) : Except PyError (List Val) :=
  match posOf col t.cols with
  | some p => .ok (t.data.getD p [])
  | none => .error (.keyError col)

/-- Assignment `t[col] = vals`: overwrite an existing column, or append
a new one as pandas does. -/
def setColD (t : DF) (col : String) (vals : List Val) : DF :=
  match posOf col t.cols with
  | some p => { t with data := t.data.set p vals }
  | none => { t with cols := t.cols ++ [col], data := t.data ++ [vals] }

/-- A cell used as a row label (pandas index entry), by its string
form. -/
def asId : Val → List Char
  | .na => "nan".data
  | .str l => l

/-- Embeds `table.index = list(table.iloc[:, 0].values)` (line 34). -/
def setIndexFirstCol (t : DF) : DF :=
  { t with index := (t.data.headD []).map asId }

/-- Line 34 with its failure mode: `iloc[:, 0]` raises `IndexError`
when the table has no columns. -/
def setIndexFirstColE (t : DF) : Except PyError DF :=
  if t.cols = [] then .error .indexError else .ok (setIndexFirstCol t)

/-- Lexicographic (code-point) comparison of two labels, the order
numpy uses when pandas sorts an object index. -/
def lexLe : List Char → List Char → Bool
  | [], _ => true
  | _ :: _, [] => false
  | a :: s, b :: t => if a < b then true else if b < a then false else lexLe s t

/-- Insert into a sorted list of labels. -/
def insSorted (x : List Char) : List (List Char) → List (List Char)
  | [] => [x]
  | y :: t => if lexLe x y then x :: y :: t else y :: insSorted x t

/-- Sort labels lexicographically (insertion sort). -/
def sortIds : List (List Char) → List (List Char)
  | [] => []
  | x :: t => insSorted x (sortIds t)

/-- Embeds `pd.Index.union` (line 39) on unique object indices with the
default `sort=None`: pandas returns `self` when `other` is empty or
element-wise equal to `self`, returns `other` when `self` is empty, and
otherwise produces the distinct union *sorted* (either by the sorted
outer merge of two monotonic indices, or by `safe_sort` applied to
`self` extended with the new labels of `other`). -/
def indexUnion (a b : List (List Char)) : List (List Char) :=
  if b = [] then a
  else if a = b then a
  else if a = [] then b
  else sortIds (a ++ b.filter (fun x => decide (¬ x ∈ a)))

/-- Embeds `table.reindex(union_index)` (line 42): rows are re-ordered
to the target labels; a target label absent from the table's index
yields an all-missing row.  Column-major, so each column is rebuilt by
looking up the position of each target label in the old index. -/
def reindexDF (u : List (List Char)) (t : DF) : DF :=
  { cols := t.cols, index := u,
    data := t.data.map (fun cv =>
      u.map (fun i =>
        match posOf i t.index with
        | some k => cv.getD k .na
        | none => .na)) }

/-- Line 42 with its failure mode: pandas raises `ValueError` when
reindexing a table whose index has duplicate labels. -/
def reindexE (u : List (List Char)) (t : DF) : Except PyError DF :=
  if t.index.Nodup then .ok (reindexDF u t) else .error .valueError

/-- Embeds `tab.iloc[:, 0] = list(tab.index)` (line 44): the first
column is overwritten with the row labels. -/
def setIdCol (t : DF) : DF :=
  { t with data := t.data.set 0 (t.index.map Val.str) }

/-- A Python list comprehension over fallible reads: stops at the first
raised exception. -/
def mapEx {α β ε : Type} (f : α → Except ε β) : List α → Except ε (List β)
  | [] => .ok []
  | a :: l =>
    match f a with
    | .error e => .error e
    | .ok b =>
      match mapEx f l with
      | .error e => .error e
      | .ok bs => .ok (b :: bs)

/-- A Python `for` loop threading a value, stopping at the first raised
exception. -/
def foldlEx {α β ε : Type} (f : β → α → Except ε β) (b : β) : List α → Except ε β
  | [] => .ok b
  | a :: l =>
    match f b a with
    | .error e => .error e
    | .ok b' => foldlEx f b' l

/-- The four fill-first-available columns (line 47). -/
def fillColsList : List String := ["Genome", "PKR", "R1_Subset", "whitelist"]

/-- The two library columns (line 53). -/
def libColsList : List String := ["ATAC_Lib", "RNA_Lib"]

/-- The eight fastq columns (line 53). -/
def fastqColsList : List String :=
  ["ATAC_fastq_R1", "ATAC_fastq_R2", "ATAC_raw_fastq_R1", "ATAC_raw_fastq_R2",
   "RNA_fastq_R1", "RNA_fastq_R2", "RNA_raw_fastq_R1", "RNA_raw_fastq_R2"]

/-- One iteration of the fill loop (lines 49-50): read `col` from every
aligned table (raising `KeyError` at the first table lacking it), and
assign the back-filled first value per row. -/
def fillStepDF (aligned : List DF) (c : DF) (col : String) : Except PyError DF :=
  match mapEx (fun t => getColE t col) aligned with
  | .error e => .error e
  | .ok colsVals =>
    .ok (setColD c col ((List.range c.index.length).map (fun k =>
      fillMerge (colsVals.map (fun cv => cv.getD k .na)))))

/-- The library branch of the column loop (lines 57-59): when every
cell of the combined table's column is already valid the per-row loop
body never runs and nothing is read or written; otherwise `find_lib`
reads the column from every table (raising `KeyError` at a table
lacking it) and each invalid cell is replaced by the last valid cell in
table order, or by the missing marker (`None`) when there is none. -/
def libStepDF (aligned : List DF) (c : DF) (col : String) : Except PyError DF :=
  let cur := getColD c col
  if cur.all (fun v => isLib v) then .ok c
  else
    match mapEx (fun t => getColE t col) aligned with
    | .error e => .error e
    | .ok colsVals =>
      .ok (setColD c col ((List.range c.index.length).map (fun k =>
        let v := cur.getD k .na
        if isLib v then v
        else (find_lib (colsVals.map (fun cv => cv.getD k .na))).getD .na)))

/-- The fastq branch of the column loop (lines 62-69): read `col` from
every table (the `naToMarker` map on line 64 touches each table, so a
table lacking the column raises `KeyError`), then per row merge the
cells with `fastqMergeCells`.  The first table is the combined table
itself in the source (they alias), so the accumulator starts from the
marker-mapped cell of the first table, as `fastqMergeCells` does. -/
def fastqStepDF (aligned : List DF) (c : DF) (col : String) : Except PyError DF :=
  match mapEx (fun t => getColE t col) aligned with
  | .error e => .error e
  | .ok colsVals =>
    .ok (setColD c col ((List.range c.index.length).map (fun k =>
      fastqMergeCells (colsVals.map (fun cv => cv.getD k .na)))))

/-- The body of the loop over the columns of the combined table (lines
55-69): library columns and fastq columns are transformed, all other
columns are left untouched. -/
def stepCol (aligned : List DF) (c : DF) (col : String) : Except PyError DF :=
  if col ∈ libColsList then libStepDF aligned c col
  else if col ∈ fastqColsList then fastqStepDF aligned c col
  else .ok c

/-- Embeds `combine_table` (lines 20-71) on already-loaded tables:
index each table by its first column, build the union index by folding
`Index.union`, reindex every table onto it and overwrite the identifier
columns, take the first table as the combined table, run the fill loop
and then the library/fastq column loop.  An empty input list raises
`IndexError` at `open_tables[0].index` (line 37). -/
def combine_table : List DF → Except PyError DF
  | [] => .error .indexError
  | t0 :: rest =>
    match setIndexFirstColE t0 with
    | .error e => .error e
    | .ok o0 =>
      match mapEx setIndexFirstColE rest with
      | .error e => .error e
      | .ok orest =>
        let u := orest.foldl (fun acc t => indexUnion acc t.index) o0.index
        match reindexE u o0 with
        | .error e => .error e
        | .ok a0 =>
          match mapEx (reindexE u) orest with
          | .error e => .error e
          | .ok arest =>
            let aligned := setIdCol a0 :: arest.map setIdCol
            match foldlEx (fillStepDF aligned) (setIdCol a0) fillColsList with
            | .error e => .error e
            | .ok c1 => foldlEx (stepCol aligned) c1 c1.cols

/-- The identifiers of a table: the values of its first column, as labels. -/
def idsOf (t : DF) : List (List Char) := (t.data.headD []).map asId

/-- The union index the pipeline computes for a table list. -/
def unionAll : List DF → List (List Char)
  | [] => []
  | t0 :: rest => rest.foldl (fun acc t => indexUnion acc (idsOf t)) (idsOf t0)

/-- The aligned tables the pipeline computes: each table indexed by its
first column, reindexed onto the union, identifier column rewritten. -/
def alignedAll (ts : List DF) : List DF :=
  ts.map (fun t => setIdCol (reindexDF (unionAll ts) (setIndexFirstCol t)))

deriving instance DecidableEq for Except

/-- The value of a fallible read, with a default for the error case. -/
def okD {ε β : Type} : Except ε β → β → β
  | .ok b, _ => b
  | .error _, d => d

/-- Shorthand for a string cell. -/
def sCell (s : String) : Val := Val.str s.data

/-- An example table: samples "b", "a"; the four fill columns, an
"RNA_Lib" column and an "RNA_fastq_R1" column. -/
def dfA : DF :=
  DF.mk ["s_id", "Genome", "PKR", "R1_Subset", "whitelist", "RNA_Lib", "RNA_fastq_R1"] []
    [[sCell "b", sCell "a"], [sCell "hg38", Val.na], [Val.na, Val.na], [Val.na, Val.na],
     [Val.na, Val.na], [Val.na, sCell "i5-01"], [sCell "[\"a.fq\"]", Val.na]]

/-- An example table with the same columns as `dfA`: samples "c", "a". -/
def dfB : DF :=
  DF.mk ["s_id", "Genome", "PKR", "R1_Subset", "whitelist", "RNA_Lib", "RNA_fastq_R1"] []
    [[sCell "c", sCell "a"], [Val.na, sCell "mm10"], [Val.na, Val.na], [Val.na, Val.na],
     [Val.na, Val.na], [sCell "Ad1-07", sCell "Ad1-99"], [sCell "[\"b.fq\"]", sCell "[\"c.fq\"]"]]

/-- An example table lacking the configured fill column "Genome". -/
def dfG : DF := DF.mk ["s_id", "PKR"] [] [[sCell "z"], [Val.na]]

/-- The combined table the pipeline produces from `dfA` and `dfB`. -/
def dfOutAB : DF := (combine_table [dfA, dfB]).toOption.getD (DF.mk [] [] [])

/-- Example per-table fastq cells: a one-path cell, a missing cell, and
a two-path cell. -/
def wPaths : List (Option (List (List Char))) :=
  [some ["a.fq".data], none, some ["b.fq".data, "c.fq".data]]

/-! ## Structural simp lemmas -/

@[simp] theorem cols_setIdCol (t : DF) : (setIdCol t).cols = t.cols := rfl

@[simp] theorem index_setIdCol (t : DF) : (setIdCol t).index = t.index := rfl

@[simp] theorem cols_reindexDF (u : List (List Char)) (t : DF) : (reindexDF u t).cols = t.cols := rfl

@[simp] theorem index_reindexDF (u : List (List Char)) (t : DF) : (reindexDF u t).index = u := rfl

@[simp] theorem cols_setIndexFirstCol (t : DF) : (setIndexFirstCol t).cols = t.cols := rfl

@[simp] theorem data_setIndexFirstCol (t : DF) : (setIndexFirstCol t).data = t.data := rfl

@[simp] theorem index_setIndexFirstCol (t : DF) : (setIndexFirstCol t).index = idsOf t := rfl

/-! ## Substring characterization (claim C4) -/

theorem isPre_iff (pat : List Char) : ∀ s : List Char, isPre pat s = true ↔ ∃ r, s = pat ++ r := by
  induction pat with
  | nil => intro s; simp [isPre]
  | cons a p ih =>
    intro s
    cases s with
    | nil => simp [isPre]
    | cons b t =>
      simp only [isPre, Bool.and_eq_true, decide_eq_true_eq, ih t, List.cons_append,
        List.cons.injEq]
      constructor
      · rintro ⟨rfl, r, rfl⟩; exact ⟨r, rfl, rfl⟩
      · rintro ⟨r, rfl, rfl⟩; exact ⟨rfl, r, rfl⟩

theorem hasSub_iff (pat : List Char) : ∀ s : List Char,
    hasSub pat s = true ↔ ∃ l r, s = l ++ pat ++ r := by
  intro s
  induction s with
  | nil =>
    simp only [hasSub, List.isEmpty_iff]
    constructor
    · rintro rfl; exact ⟨[], [], rfl⟩
    · rintro ⟨l, r, h⟩
      rcases List.append_eq_nil.mp h.symm with ⟨h1, h2⟩
      exact (List.append_eq_nil.mp h1).2
  | cons c t ih =>
    simp only [hasSub, Bool.or_eq_true, ih, isPre_iff]
    constructor
    · rintro (⟨r, h⟩ | ⟨l, r, h⟩)
      · exact ⟨[], r, by simpa using h⟩
      · exact ⟨c :: l, r, by simp [h]⟩
    · rintro ⟨l, r, h⟩
      cases l with
      | nil => exact Or.inl ⟨r, by simpa using h⟩
      | cons x l' =>
        right
        rcases List.cons.injEq .. ▸ h with ⟨rfl, h2⟩
        exact ⟨l', r, by simpa using h2⟩

/-- C4: `isLib v` holds exactly when the string form of `v` contains
"i5" or "Ad1" as a substring; in particular it is false on the missing
marker and on the empty string. -/
theorem C4_isLib_substring :
    (∀ v : Val, isLib v = true ↔
      ((∃ l r, strForm v = l ++ "i5".data ++ r) ∨ (∃ l r, strForm v = l ++ "Ad1".data ++ r)))
    ∧ isLib Val.na = false ∧ isLib (Val.str []) = false := by
  refine ⟨fun v => ?_, by decide, by decide⟩
  simp [isLib, Bool.or_eq_true, hasSub_iff]

/-! ## Last-valid-wins library scan and back-fill (claims C3, C2) -/

theorem find_lib_foldl_eq (l : List Val) : ∀ init : Option Val,
    l.foldl (fun lib c => if isLib c then some c else lib) init =
      match l.reverse.find? isLib with
      | some v => some v
      | none => init := by
  induction l with
  | nil => intro init; simp
  | cons c t ih =>
    intro init
    simp only [List.foldl_cons, List.reverse_cons, List.find?_append, ih]
    cases hf : t.reverse.find? isLib with
    | some v => simp
    | none => cases hc : isLib c <;> simp [List.find?, hc]

/-- `find_lib` returns the last valid cell in table order: the first
valid cell of the reversed list. -/
theorem find_lib_eq_rev (cells : List Val) : find_lib cells = cells.reverse.find? isLib := by
  rw [find_lib, find_lib_foldl_eq]
  cases cells.reverse.find? isLib <;> rfl

/-- Back-filling a row and taking its head yields the first
non-missing entry, or the missing marker. -/
theorem fillMerge_eq_find (cells : List Val) :
    fillMerge cells = (cells.find? (fun v => !isNa v)).getD Val.na := by
  induction cells with
  | nil => rfl
  | cons v r ih =>
    simp only [fillMerge, bfillRow, List.headD_cons] at *
    cases hv : isNa v with
    | true => simpa [List.find?, hv] using ih
    | false => simp [List.find?, hv]

/-! ## Claim C6: fastq cell missing from every table -/

theorem fastq_fold_markers (l : List Val) (h : ∀ c ∈ l, c = Val.na) :
    (l.map naToMarker).foldl fastqStepV (Val.str []) = Val.str [] := by
  induction l with
  | nil => rfl
  | cons c t ih =>
    have hc := h c (List.mem_cons_self c t)
    subst hc
    simp only [List.map_cons, List.foldl_cons]
    have hstep : fastqStepV (Val.str []) (naToMarker Val.na) = Val.str [] := by decide
    rw [hstep]
    exact ih (fun c hc => h c (List.mem_cons_of_mem _ hc))

/-- C6 (amended): when the fastq cell is missing from every one of at
least two tables, the merged cell is the *empty string*: the two
`[""]` markers concatenate to `[""][""]` and both occurrences are
removed by the normalization, leaving `""` (not the untouched `[""]`
the claim states). -/
theorem C6_all_missing (cells : List Val) (h1 : ∀ c ∈ cells, c = Val.na)
    (h2 : 2 ≤ cells.length) : fastqMergeCells cells = Val.str [] := by
  cases cells with
  | nil => simp at h2
  | cons c0 t =>
    cases t with
    | nil => simp at h2
    | cons c1 rest =>
      have h0 := h1 c0 (by simp)
      have hc1 := h1 c1 (by simp)
      subst h0; subst hc1
      show ((Val.na :: rest).map naToMarker).foldl fastqStepV (naToMarker Val.na) = Val.str []
      simp only [List.map_cons, List.foldl_cons]
      have hstep : fastqStepV (naToMarker Val.na) (naToMarker Val.na) = Val.str [] := by decide
      rw [hstep]
      exact fastq_fold_markers rest (fun c hc => h1 c (by simp [hc]))

theorem C6_all_missing_w : fastqMergeCells [Val.na, Val.na] = Val.str [] :=
  C6_all_missing [Val.na, Val.na] (by decide) (by decide)

/-- C6 counterexample: with two all-missing cells the merged value is
`""`, not the literal `[""]` the claim asserts. -/
theorem C6_counterexample :
    fastqMergeCells [Val.na, Val.na] = Val.str [] ∧
    fastqMergeCells [Val.na, Val.na] ≠ Val.str emptyMarker := by decide

/-! ## Claim C9: entity-name derivation -/

/-- C9: evaluating the naming code of the source on the first-column name
`entity:donor_id` yields `onor` — Python `str.strip("entity:")` and
`str.strip("_id")` strip character *sets*, so the leading `d` and the
trailing characters of `donor` are eaten — while the claimed literal
prefix/suffix stripping yields `donor`. -/
theorem C9_entity_name_donor :
    entity_name "entity:donor_id".data = "onor".data ∧
    entity_name_literal "entity:donor_id".data = "donor".data := by decide

/-! ## Claim C7: fewer than two tables -/

/-- C7 (amended): with *zero* tables the function fails — the source
raises `IndexError` at `open_tables[0].index` — and no combined table
is produced.  (A single table is accepted; see the counterexample.) -/
theorem C7_zero_tables : combine_table [] = Except.error PyError.indexError := rfl

/-- C7 counterexample: a single input table is accepted and a combined
table is produced, contradicting the claim that fewer than two tables
fail. -/
theorem C7_counterexample : (combine_table [dfA]).toOption.isSome = true := by decide

/-! ## Claim C5: fastq list concatenation -/

theorem stripEmpty_cons (c : Char) (s : List Char) (h : c ≠ '[') :
    stripEmpty (c :: s) = c :: stripEmpty s := by
  match s with
  | [] => simp [stripEmpty]
  | [c1] => simp [stripEmpty, h]
  | [c1, c2] => simp [stripEmpty, h]
  | c1 :: c2 :: c3 :: t => simp [stripEmpty, h]

theorem stripEmpty_append_no_lb (s t : List Char) (h : ∀ c ∈ s, c ≠ '[') :
    stripEmpty (s ++ t) = s ++ stripEmpty t := by
  induction s with
  | nil => rfl
  | cons c s' ih =>
    rw [List.cons_append, stripEmpty_cons c _ (h c (by simp)),
      ih (fun c hc => h c (by simp [hc]))]
    rfl

theorem stripEmpty_marker_pre (t : List Char) :
    stripEmpty (emptyMarker ++ t) = stripEmpty t := rfl

theorem fuseBrackets_cons (c : Char) (s : List Char) (h : c ≠ ']') :
    fuseBrackets (c :: s) = c :: fuseBrackets s := by
  match s with
  | [] => simp [fuseBrackets]
  | c1 :: t => simp [fuseBrackets, h]

theorem fuseBrackets_append_no_rb (s t : List Char) (h : ∀ c ∈ s, c ≠ ']') :
    fuseBrackets (s ++ t) = s ++ fuseBrackets t := by
  induction s with
  | nil => rfl
  | cons c s' ih =>
    rw [List.cons_append, fuseBrackets_cons c _ (h c (by simp)),
      ih (fun c hc => h c (by simp [hc]))]
    rfl

theorem fuseBrackets_pair (s : List Char) :
    fuseBrackets (']' :: '[' :: s) = ',' :: fuseBrackets s := rfl

theorem mem_quoteP (c : Char) (p : List Char) (h : c ∈ quoteP p) : c = '"' ∨ c ∈ p := by
  rcases List.mem_cons.mp h with h1 | h1
  · exact Or.inl h1
  · rcases List.mem_append.mp h1 with h2 | h2
    · exact Or.inr h2
    · exact Or.inl (by simpa using h2)

theorem mem_restB (c : Char) : ∀ ps : List (List Char),
    c ∈ restB ps → c = ',' ∨ c = '"' ∨ ∃ p ∈ ps, c ∈ p := by
  intro ps
  induction ps with
  | nil => intro h; simp [restB] at h
  | cons p ps' ih =>
    intro h
    rcases List.mem_cons.mp h with h1 | h1
    · exact Or.inl h1
    · rcases List.mem_append.mp h1 with h2 | h2
      · rcases mem_quoteP c p h2 with h3 | h3
        · exact Or.inr (Or.inl h3)
        · exact Or.inr (Or.inr ⟨p, by simp, h3⟩)
      · rcases ih h2 with h3 | h3 | ⟨q, hq, hc⟩
        · exact Or.inl h3
        · exact Or.inr (Or.inl h3)
        · exact Or.inr (Or.inr ⟨q, by simp [hq], hc⟩)

theorem mem_bodyP (c : Char) (ps : List (List Char)) (h : c ∈ bodyP ps) :
    c = ',' ∨ c = '"' ∨ ∃ p ∈ ps, c ∈ p := by
  cases ps with
  | nil => simp [bodyP] at h
  | cons p ps' =>
    rcases List.mem_append.mp h with h1 | h1
    · rcases mem_quoteP c p h1 with h2 | h2
      · exact Or.inr (Or.inl h2)
      · exact Or.inr (Or.inr ⟨p, by simp, h2⟩)
    · rcases mem_restB c ps' h1 with h2 | h2 | ⟨q, hq, hc⟩
      · exact Or.inl h2
      · exact Or.inr (Or.inl h2)
      · exact Or.inr (Or.inr ⟨q, by simp [hq], hc⟩)

theorem goodPathB_iff (p : List Char) :
    goodPathB p = true ↔ p ≠ [] ∧ ∀ c ∈ p, c ≠ '[' ∧ c ≠ ']' ∧ c ≠ '"' := by
  simp [goodPathB, List.all_eq_true, List.isEmpty_iff, and_assoc]

theorem bodyP_no_lb (ps : List (List Char)) (h : ∀ p ∈ ps, goodPathB p = true) :
    ∀ c ∈ bodyP ps, c ≠ '[' := by
  intro c hc
  rcases mem_bodyP c ps hc with h1 | h1 | ⟨p, hp, hcp⟩
  · subst h1; decide
  · subst h1; decide
  · exact (((goodPathB_iff p).mp (h p hp)).2 c hcp).1

theorem bodyP_no_rb (ps : List (List Char)) (h : ∀ p ∈ ps, goodPathB p = true) :
    ∀ c ∈ bodyP ps, c ≠ ']' := by
  intro c hc
  rcases mem_bodyP c ps hc with h1 | h1 | ⟨p, hp, hcp⟩
  · subst h1; decide
  · subst h1; decide
  · exact (((goodPathB_iff p).mp (h p hp)).2 c hcp).2.1

theorem stripEmpty_lbq (c0 : Char) (X : List Char) (h1 : c0 ≠ '"') (h2 : c0 ≠ '[') :
    stripEmpty ('[' :: '"' :: c0 :: X) = '[' :: '"' :: c0 :: stripEmpty X := by
  have e1 : stripEmpty ('[' :: '"' :: c0 :: X) = '[' :: stripEmpty ('"' :: c0 :: X) := by
    match X with
    | [] => simp [stripEmpty]
    | x :: X' => simp [stripEmpty, h1]
  rw [e1, stripEmpty_cons _ _ (by decide), stripEmpty_cons _ _ h2]

theorem stripEmpty_render_append (ps : List (List Char)) (hne : ps ≠ [])
    (hgood : ∀ p ∈ ps, goodPathB p = true) (t : List Char) :
    stripEmpty (renderPaths ps ++ t) = renderPaths ps ++ stripEmpty t := by
  match ps, hne with
  | p :: ps', _ =>
    have hp := (goodPathB_iff p).mp (hgood p (by simp))
    match p, hp.1 with
    | c0 :: p', _ =>
      have hc0 := hp.2 c0 (by simp)
      have hshape : renderPaths ((c0 :: p') :: ps') ++ t =
          '[' :: '"' :: c0 :: ((p' ++ '"' :: (restB ps' ++ [']'])) ++ t) := by
        simp [renderPaths, bodyP, quoteP]
      rw [hshape, stripEmpty_lbq c0 _ hc0.2.2 hc0.1,
        stripEmpty_append_no_lb (p' ++ '"' :: (restB ps' ++ [']'])) t ?nolb]
      case nolb =>
        intro c hc
        rcases List.mem_append.mp hc with h1 | h1
        · exact (hp.2 c (by simp [h1])).1
        · rcases List.mem_cons.mp h1 with h2 | h2
          · subst h2; decide
          · rcases List.mem_append.mp h2 with h3 | h3
            · rcases mem_restB c ps' h3 with h4 | h4 | ⟨q, hq, hcq⟩
              · subst h4; decide
              · subst h4; decide
              · exact (((goodPathB_iff q).mp (hgood q (by simp [hq]))).2 c hcq).1
            · simp only [List.mem_singleton] at h3; subst h3; decide
      simp [renderPaths, bodyP, quoteP]

theorem stripEmpty_render (ps : List (List Char)) (hne : ps ≠ [])
    (hgood : ∀ p ∈ ps, goodPathB p = true) :
    stripEmpty (renderPaths ps) = renderPaths ps := by
  have h := stripEmpty_render_append ps hne hgood []
  simpa [show stripEmpty ([] : List Char) = [] from rfl] using h

theorem fuse_render (ps : List (List Char)) (hgood : ∀ p ∈ ps, goodPathB p = true) :
    fuseBrackets (renderPaths ps) = renderPaths ps := by
  rw [renderPaths, fuseBrackets_cons _ _ (by decide),
    fuseBrackets_append_no_rb (bodyP ps) [']'] (bodyP_no_rb ps hgood)]
  rfl

theorem restB_append (ps qs : List (List Char)) : restB (ps ++ qs) = restB ps ++ restB qs := by
  induction ps with
  | nil => rfl
  | cons p ps' ih => simp [restB, ih]

theorem bodyP_append (ps qs : List (List Char)) (hps : ps ≠ []) (hqs : qs ≠ []) :
    bodyP (ps ++ qs) = bodyP ps ++ ',' :: bodyP qs := by
  match ps, hps with
  | p :: ps', _ =>
    match qs, hqs with
    | q :: qs', _ =>
      simp [bodyP, restB_append, restB]

theorem fuse_render_render (ps qs : List (List Char)) (hps : ps ≠ []) (hqs : qs ≠ [])
    (hgoodp : ∀ p ∈ ps, goodPathB p = true) (hgoodq : ∀ p ∈ qs, goodPathB p = true) :
    fuseBrackets (renderPaths ps ++ renderPaths qs) = renderPaths (ps ++ qs) := by
  have hshape : renderPaths ps ++ renderPaths qs =
      '[' :: (bodyP ps ++ (']' :: '[' :: (bodyP qs ++ [']'])))  := by
    simp [renderPaths]
  rw [hshape, fuseBrackets_cons _ _ (by decide),
    fuseBrackets_append_no_rb (bodyP ps) _ (bodyP_no_rb ps hgoodp),
    fuseBrackets_pair,
    fuseBrackets_append_no_rb (bodyP qs) _ (bodyP_no_rb qs hgoodq)]
  have : fuseBrackets [']'] = [']'] := rfl
  rw [this, renderPaths, bodyP_append ps qs hps hqs]
  simp

theorem fastqStepV_render_marker (ps : List (List Char)) (hne : ps ≠ [])
    (hgood : ∀ p ∈ ps, goodPathB p = true) :
    fastqStepV (Val.str (renderPaths ps)) (Val.str emptyMarker) = Val.str (renderPaths ps) := by
  show Val.str (fuseBrackets (stripEmpty (renderPaths ps ++ emptyMarker))) = _
  rw [stripEmpty_render_append ps hne hgood emptyMarker]
  have h1 : stripEmpty emptyMarker = [] := rfl
  rw [h1, List.append_nil, fuse_render ps hgood]

theorem fastqStepV_render_render (ps qs : List (List Char)) (hps : ps ≠ []) (hqs : qs ≠ [])
    (hgoodp : ∀ p ∈ ps, goodPathB p = true) (hgoodq : ∀ p ∈ qs, goodPathB p = true) :
    fastqStepV (Val.str (renderPaths ps)) (Val.str (renderPaths qs)) =
      Val.str (renderPaths (ps ++ qs)) := by
  show Val.str (fuseBrackets (stripEmpty (renderPaths ps ++ renderPaths qs))) = _
  rw [stripEmpty_render_append ps hps hgoodp, stripEmpty_render qs hqs hgoodq,
    fuse_render_render ps qs hps hqs hgoodp hgoodq]

theorem fastqStepV_empty_render (qs : List (List Char)) (hqs : qs ≠ [])
    (hgoodq : ∀ p ∈ qs, goodPathB p = true) :
    fastqStepV (Val.str []) (Val.str (renderPaths qs)) = Val.str (renderPaths qs) := by
  show Val.str (fuseBrackets (stripEmpty ([] ++ renderPaths qs))) = _
  rw [List.nil_append, stripEmpty_render qs hqs hgoodq, fuse_render qs hgoodq]

theorem fastqStepV_marker_render (qs : List (List Char)) (hqs : qs ≠ [])
    (hgoodq : ∀ p ∈ qs, goodPathB p = true) :
    fastqStepV (Val.str emptyMarker) (Val.str (renderPaths qs)) = Val.str (renderPaths qs) := by
  show Val.str (fuseBrackets (stripEmpty (emptyMarker ++ renderPaths qs))) = _
  rw [stripEmpty_marker_pre, stripEmpty_render qs hqs hgoodq, fuse_render qs hgoodq]

theorem goodCellB_some (qs : List (List Char)) (h : goodCellB (some qs) = true) :
    qs ≠ [] ∧ ∀ p ∈ qs, goodPathB p = true := by
  simpa [goodCellB, List.all_eq_true, List.isEmpty_iff] using h

theorem collectP_cons_none (r : List (Option (List (List Char)))) :
    collectP (none :: r) = collectP r := by
  simp [collectP]

theorem collectP_cons_some (qs : List (List Char)) (r : List (Option (List (List Char)))) :
    collectP (some qs :: r) = qs ++ collectP r := by
  simp [collectP]

theorem fold_from_render (rest : List (Option (List (List Char)))) :
    ∀ ps : List (List Char), ps ≠ [] → (∀ p ∈ ps, goodPathB p = true) →
    (∀ o ∈ rest, goodCellB o = true) →
    (rest.map (fun o => naToMarker (cellP o))).foldl fastqStepV (Val.str (renderPaths ps))
      = Val.str (renderPaths (ps ++ collectP rest)) := by
  induction rest with
  | nil => intro ps _ _ _; simp [collectP]
  | cons o r ih =>
    intro ps hps hgood hrest
    cases o with
    | none =>
      simp only [List.map_cons, List.foldl_cons]
      have hm : naToMarker (cellP none) = Val.str emptyMarker := rfl
      rw [hm, fastqStepV_render_marker ps hps hgood,
        ih ps hps hgood (fun o ho => hrest o (by simp [ho])), collectP_cons_none]
    | some qs =>
      have hq := goodCellB_some qs (hrest _ (by simp))
      simp only [List.map_cons, List.foldl_cons]
      have hm : naToMarker (cellP (some qs)) = Val.str (renderPaths qs) := rfl
      rw [hm, fastqStepV_render_render ps qs hps hq.1 hgood hq.2,
        ih (ps ++ qs) (by simp [hps]) ?hg (fun o ho => hrest o (by simp [ho])),
        collectP_cons_some]
      · simp
      case hg =>
        intro p hp
        rcases List.mem_append.mp hp with h1 | h1
        · exact hgood p h1
        · exact hq.2 p h1

theorem fold_from_empty (rest : List (Option (List (List Char))))
    (hrest : ∀ o ∈ rest, goodCellB o = true) :
    (rest.map (fun o => naToMarker (cellP o))).foldl fastqStepV (Val.str [])
      = if collectP rest = [] then Val.str [] else Val.str (renderPaths (collectP rest)) := by
  induction rest with
  | nil => simp [collectP]
  | cons o r ih =>
    cases o with
    | none =>
      simp only [List.map_cons, List.foldl_cons]
      have hstep : fastqStepV (Val.str []) (naToMarker (cellP none)) = Val.str [] := by decide
      rw [hstep, ih (fun o ho => hrest o (by simp [ho])), collectP_cons_none]
    | some qs =>
      have hq := goodCellB_some qs (hrest _ (by simp))
      simp only [List.map_cons, List.foldl_cons]
      have hm : naToMarker (cellP (some qs)) = Val.str (renderPaths qs) := rfl
      rw [hm, fastqStepV_empty_render qs hq.1 hq.2,
        fold_from_render r qs hq.1 hq.2 (fun o ho => hrest o (by simp [ho])),
        collectP_cons_some]
      have hne : qs ++ collectP r ≠ [] := by simp [hq.1]
      simp [hne]

theorem fold_from_marker (rest : List (Option (List (List Char)))) (hne : rest ≠ [])
    (hrest : ∀ o ∈ rest, goodCellB o = true) :
    (rest.map (fun o => naToMarker (cellP o))).foldl fastqStepV (Val.str emptyMarker)
      = if collectP rest = [] then Val.str [] else Val.str (renderPaths (collectP rest)) := by
  match rest, hne with
  | o :: r, _ =>
    cases o with
    | none =>
      simp only [List.map_cons, List.foldl_cons]
      have hstep : fastqStepV (Val.str emptyMarker) (naToMarker (cellP none)) = Val.str [] := by
        decide
      rw [hstep, fold_from_empty r (fun o ho => hrest o (by simp [ho])), collectP_cons_none]
    | some qs =>
      have hq := goodCellB_some qs (hrest _ (by simp))
      simp only [List.map_cons, List.foldl_cons]
      have hm : naToMarker (cellP (some qs)) = Val.str (renderPaths qs) := rfl
      rw [hm, fastqStepV_marker_render qs hq.1 hq.2,
        fold_from_render r qs hq.1 hq.2 (fun o ho => hrest o (by simp [ho])),
        collectP_cons_some]
      have hne2 : qs ++ collectP r ≠ [] := by simp [hq.1]
      simp [hne2]

/-- C5: for well-formed per-table fastq cells (each missing, or a
non-empty list of non-empty paths free of `[`, `]`, `"`), of which at
least one contributes a path, the merged cell is the single bracketed,
comma-separated list of every path from every table, in table order
with per-table order preserved; missing tables contribute nothing. -/
theorem C5_fastq_merge (pss : List (Option (List (List Char))))
    (hgood : ∀ o ∈ pss, goodCellB o = true)
    (hsome : collectP pss ≠ []) :
    fastqMergeCells (pss.map cellP) = Val.str (renderPaths (collectP pss)) := by
  cases pss with
  | nil => simp [collectP] at hsome
  | cons o rest =>
    have hmm : (List.map cellP (o :: rest)) = cellP o :: rest.map cellP := rfl
    rw [hmm]
    show ((rest.map cellP).map naToMarker).foldl fastqStepV (naToMarker (cellP o)) = _
    rw [List.map_map]
    have hcomp : (naToMarker ∘ cellP) = (fun o => naToMarker (cellP o)) := rfl
    rw [hcomp]
    cases o with
    | some ps =>
      have hp := goodCellB_some ps (hgood _ (by simp))
      have hm : naToMarker (cellP (some ps)) = Val.str (renderPaths ps) := rfl
      rw [hm, fold_from_render rest ps hp.1 hp.2 (fun o ho => hgood o (by simp [ho])),
        collectP_cons_some]
    | none =>
      have hm : naToMarker (cellP none) = Val.str emptyMarker := rfl
      rw [hm]
      cases rest with
      | nil => simp [collectP, List.filterMap] at hsome
      | cons o' r' =>
        rw [fold_from_marker (o' :: r') (by simp) (fun o ho => hgood o (by simp [ho]))]
        rw [collectP_cons_none] at hsome
        simp [hsome, collectP_cons_none]

theorem C5_fastq_merge_w :
    fastqMergeCells (wPaths.map cellP) = Val.str (renderPaths (collectP wPaths)) :=
  C5_fastq_merge wPaths (by decide) (by decide)

/-! ## List and lookup helper lemmas -/

theorem getD_set_same {α : Type} : ∀ (l : List α) (p : Nat) (v d), p < l.length →
    (l.set p v).getD p d = v := by
  intro l
  induction l with
  | nil => intro p v d h; simp at h
  | cons x t ih =>
    intro p v d h
    cases p with
    | zero => rfl
    | succ q => exact ih q v d (by simpa using h)

theorem getD_set_ne {α : Type} : ∀ (l : List α) (p q : Nat) (v d), p ≠ q →
    (l.set p v).getD q d = l.getD q d := by
  intro l
  induction l with
  | nil => intro p q v d h; simp
  | cons x t ih =>
    intro p q v d h
    cases p with
    | zero =>
      cases q with
      | zero => exact absurd rfl h
      | succ q' => rfl
    | succ p' =>
      cases q with
      | zero => rfl
      | succ q' => exact ih p' q' v d (by omega)

theorem getD_map {α β : Type} (f : α → β) : ∀ (l : List α) (p : Nat) (d : α), p < l.length →
    (l.map f).getD p (f d) = f (l.getD p d) := by
  intro l
  induction l with
  | nil => intro p d h; simp at h
  | cons x t ih =>
    intro p d h
    cases p with
    | zero => rfl
    | succ q => exact ih q d (by simpa using h)

theorem headD_set_zero {α : Type} (l : List α) (v d : α) (h : l ≠ []) :
    (l.set 0 v).headD d = v := by
  cases l with
  | nil => exact absurd rfl h
  | cons x t => rfl

/-! ## posOf lemmas -/

theorem posOf_some_getElem {α : Type} [DecidableEq α] (x : α) : ∀ (l : List α) (p : Nat),
    posOf x l = some p → l[p]? = some x := by
  intro l
  induction l with
  | nil => intro p h; simp [posOf] at h
  | cons y t ih =>
    intro p h
    by_cases hy : y = x
    · simp [posOf, hy] at h
      subst hy; subst h; simp
    · simp only [posOf, if_neg hy, Option.map_eq_some'] at h
      obtain ⟨q, hq, rfl⟩ := h
      simpa using ih q hq

theorem posOf_lt_length {α : Type} [DecidableEq α] (x : α) (l : List α) (p : Nat)
    (h : posOf x l = some p) : p < l.length := by
  have h2 := posOf_some_getElem x l p h
  exact (List.getElem?_eq_some.mp h2).1

theorem posOf_mem {α : Type} [DecidableEq α] (x : α) : ∀ l : List α, x ∈ l →
    ∃ p, posOf x l = some p := by
  intro l
  induction l with
  | nil => intro h; simp at h
  | cons y t ih =>
    intro h
    by_cases hy : y = x
    · exact ⟨0, by simp [posOf, hy]⟩
    · rcases List.mem_cons.mp h with h1 | h1
      · exact absurd h1.symm hy
      · obtain ⟨q, hq⟩ := ih h1
        exact ⟨q + 1, by simp [posOf, hy, hq]⟩

theorem posOf_none_of_not_mem {α : Type} [DecidableEq α] (x : α) : ∀ l : List α, x ∉ l →
    posOf x l = none := by
  intro l
  induction l with
  | nil => intro h; rfl
  | cons y t ih =>
    intro h
    have hy : y ≠ x := fun he => h (by simp [he])
    have ht : x ∉ t := fun hm => h (by simp [hm])
    simp [posOf, hy, ih ht]

theorem posOf_some_mem {α : Type} [DecidableEq α] (x : α) (l : List α) (p : Nat)
    (h : posOf x l = some p) : x ∈ l := by
  by_contra hx
  rw [posOf_none_of_not_mem x l hx] at h
  exact Option.noConfusion h

theorem posOf_zero_head {α : Type} [DecidableEq α] (x : α) (l : List α) (d : α)
    (h : posOf x l = some 0) : l.headD d = x := by
  cases l with
  | nil => simp [posOf] at h
  | cons y t =>
    by_cases hy : y = x
    · simp [hy]
    · simp [posOf, hy] at h

/-! ## Column access lemmas -/

theorem getColE_ok_of_mem (t : DF) (col : String) (h : col ∈ t.cols) :
    getColE t col = .ok (getColD t col) := by
  obtain ⟨p, hp⟩ := posOf_mem col t.cols h
  simp [getColE, getColD, hp]

theorem getColE_error_of_not_mem (t : DF) (col : String) (h : col ∉ t.cols) :
    getColE t col = .error (.keyError col) := by
  simp [getColE, posOf_none_of_not_mem col t.cols h]

theorem getColE_ok_mem (t : DF) (col : String) (r : List Val) (h : getColE t col = .ok r) :
    col ∈ t.cols ∧ r = getColD t col := by
  cases hp : posOf col t.cols with
  | none => simp [getColE, hp] at h
  | some p =>
    simp only [getColE, hp] at h
    injection h with h2
    refine ⟨posOf_some_mem col t.cols p hp, ?_⟩
    simp only [getColD, hp]
    exact h2.symm

theorem okD_getColE (t : DF) (col : String) : okD (getColE t col) [] = getColD t col := by
  cases hp : posOf col t.cols <;> simp [getColE, getColD, okD, hp]

theorem setColD_cols (t : DF) (col : String) (v : List Val) (h : col ∈ t.cols) :
    (setColD t col v).cols = t.cols := by
  obtain ⟨p, hp⟩ := posOf_mem col t.cols h
  simp [setColD, hp]

theorem setColD_index (t : DF) (col : String) (v : List Val) :
    (setColD t col v).index = t.index := by
  cases hp : posOf col t.cols <;> simp [setColD, hp]

theorem setColD_data_length (t : DF) (col : String) (v : List Val) (h : col ∈ t.cols) :
    (setColD t col v).data.length = t.data.length := by
  obtain ⟨p, hp⟩ := posOf_mem col t.cols h
  simp [setColD, hp]

theorem getColD_setColD_same (t : DF) (col : String) (v : List Val)
    (hmem : col ∈ t.cols) (hlen : t.data.length = t.cols.length) :
    getColD (setColD t col v) col = v := by
  obtain ⟨p, hp⟩ := posOf_mem col t.cols hmem
  have hplt : p < t.data.length := hlen ▸ posOf_lt_length col t.cols p hp
  simp only [setColD, hp, getColD]
  exact getD_set_same t.data p v [] hplt

theorem getColD_setColD_ne (t : DF) (col col' : String) (v : List Val)
    (hmem : col' ∈ t.cols) (hne : col ≠ col') :
    getColD (setColD t col' v) col = getColD t col := by
  obtain ⟨p', hp'⟩ := posOf_mem col' t.cols hmem
  simp only [setColD, hp', getColD]
  cases hp : posOf col t.cols with
  | none => simp
  | some p =>
    have hcp : t.cols[p]? = some col := posOf_some_getElem col t.cols p hp
    have hcp' : t.cols[p']? = some col' := posOf_some_getElem col' t.cols p' hp'
    have hpp : p' ≠ p := by
      intro he
      rw [he] at hcp'
      rw [hcp] at hcp'
      exact hne (Option.some.inj hcp')
    simp only
    exact getD_set_ne t.data p' p v [] hpp

theorem headD_data_setColD (t : DF) (col : String) (v : List Val)
    (hmem : col ∈ t.cols) (hne : col ≠ t.cols.headD "") :
    (setColD t col v).data.headD [] = t.data.headD [] := by
  obtain ⟨p, hp⟩ := posOf_mem col t.cols hmem
  simp only [setColD, hp]
  cases p with
  | zero => exact absurd (posOf_zero_head col t.cols "" hp).symm hne
  | succ q =>
    cases t.data with
    | nil => rfl
    | cons d0 dr => rfl

/-! ## mapEx and foldlEx lemmas -/

theorem mapEx_cons {α β ε : Type} (f : α → Except ε β) (a : α) (l : List α) :
    mapEx f (a :: l) = match f a with
      | .error e => .error e
      | .ok b => match mapEx f l with
        | .error e => .error e
        | .ok bs => .ok (b :: bs) := rfl

theorem mapEx_ok_of_forall {α β ε : Type} (f : α → Except ε β) (g : α → β) :
    ∀ l : List α, (∀ a ∈ l, f a = .ok (g a)) → mapEx f l = .ok (l.map g) := by
  intro l
  induction l with
  | nil => intro _; rfl
  | cons a t ih =>
    intro h
    rw [mapEx_cons, h a (by simp), ih (fun a ha => h a (by simp [ha]))]
    rfl

theorem mapEx_ok_forall {α β ε : Type} (f : α → Except ε β) :
    ∀ (l : List α) (r : List β), mapEx f l = .ok r → ∀ a ∈ l, ∃ b, f a = .ok b := by
  intro l
  induction l with
  | nil => intro r _ a ha; simp at ha
  | cons a t ih =>
    intro r h a' ha'
    rw [mapEx_cons] at h
    cases hfa : f a with
    | error e => rw [hfa] at h; exact absurd h (by simp)
    | ok b =>
      rw [hfa] at h
      cases hm : mapEx f t with
      | error e => rw [hm] at h; exact absurd h (by simp)
      | ok bs =>
        rcases List.mem_cons.mp ha' with h1 | h1
        · exact ⟨b, h1 ▸ hfa⟩
        · exact ih bs hm a' h1

theorem foldlEx_cons {α β ε : Type} (f : β → α → Except ε β) (b : β) (a : α) (l : List α) :
    foldlEx f b (a :: l) = match f b a with
      | .error e => .error e
      | .ok b' => foldlEx f b' l := rfl

theorem foldlEx_cons_ok {α β ε : Type} {f : β → α → Except ε β} {b b' : β} {a : α}
    (l : List α) (h : f b a = .ok b') : foldlEx f b (a :: l) = foldlEx f b' l := by
  rw [foldlEx_cons, h]

theorem foldlEx_cons_error {α β ε : Type} {f : β → α → Except ε β} {b : β} {a : α} {e : ε}
    (l : List α) (h : f b a = .error e) : foldlEx f b (a :: l) = .error e := by
  rw [foldlEx_cons, h]

theorem foldlEx_append {α β ε : Type} (f : β → α → Except ε β) :
    ∀ (l1 l2 : List α) (b : β), foldlEx f b (l1 ++ l2) =
      match foldlEx f b l1 with
      | .error e => .error e
      | .ok b' => foldlEx f b' l2 := by
  intro l1
  induction l1 with
  | nil => intro l2 b; rfl
  | cons a t ih =>
    intro l2 b
    rw [List.cons_append, foldlEx_cons, foldlEx_cons]
    cases hfa : f b a with
    | error e => rfl
    | ok b' => exact ih l2 b'

theorem foldlEx_inv {α β ε : Type} {P : β → Prop} {f : β → α → Except ε β} :
    ∀ (l : List α) (b0 b1 : β), foldlEx f b0 l = .ok b1 → P b0 →
      (∀ b a b', a ∈ l → P b → f b a = .ok b' → P b') → P b1 := by
  intro l
  induction l with
  | nil => intro b0 b1 h h0 _; cases h; exact h0
  | cons a t ih =>
    intro b0 b1 h h0 hstep
    cases hfa : f b0 a with
    | error e => rw [foldlEx_cons_error t hfa] at h; exact absurd h (by simp)
    | ok b' =>
      rw [foldlEx_cons_ok t hfa] at h
      exact ih b' b1 h (hstep b0 a b' (by simp) h0 hfa)
        (fun b a' b'' ha' => hstep b a' b'' (by simp [ha']))

theorem foldlEx_establish {α β ε : Type} {P Q : β → Prop} {f : β → α → Except ε β}
    (l : List α) (x : α) (b0 b1 : β)
    (hmem : x ∈ l) (hnd : l.Nodup)
    (hfold : foldlEx f b0 l = .ok b1)
    (hQ0 : Q b0)
    (hQstep : ∀ b a b', a ∈ l → Q b → f b a = .ok b' → Q b')
    (hEst : ∀ b b', Q b → f b x = .ok b' → P b')
    (hPres : ∀ b a b', a ∈ l → a ≠ x → P b → Q b → f b a = .ok b' → P b') :
    P b1 ∧ Q b1 := by
  obtain ⟨l1, l2, rfl⟩ := List.append_of_mem hmem
  have hx2 : x ∉ l2 := by
    have h1 := (List.nodup_append.mp hnd).2.1
    exact (List.nodup_cons.mp h1).1
  rw [foldlEx_append] at hfold
  cases h1 : foldlEx f b0 l1 with
  | error e => rw [h1] at hfold; exact absurd hfold (by simp)
  | ok bmid =>
    rw [h1] at hfold
    have hfold2 : foldlEx f bmid (x :: l2) = .ok b1 := hfold
    have hQmid : Q bmid := foldlEx_inv l1 b0 bmid h1 hQ0
      (fun b a b' ha => hQstep b a b' (by simp [ha]))
    cases h2 : f bmid x with
    | error e => rw [foldlEx_cons_error l2 h2] at hfold2; exact absurd hfold2 (by simp)
    | ok bx =>
      rw [foldlEx_cons_ok l2 h2] at hfold2
      have hPx : P bx := hEst bmid bx hQmid h2
      have hQx : Q bx := hQstep bmid x bx (by simp) hQmid h2
      exact foldlEx_inv (P := fun b => P b ∧ Q b) l2 bx b1 hfold2 ⟨hPx, hQx⟩
        (fun b a b' ha hpq hf =>
          ⟨hPres b a b' (by simp [ha]) (fun he => hx2 (he ▸ ha)) hpq.1 hpq.2 hf,
           hQstep b a b' (by simp [ha]) hpq.2 hf⟩)

/-! ## Union index lemmas -/

theorem insSorted_perm (x : List Char) : ∀ l, (insSorted x l).Perm (x :: l) := by
  intro l
  induction l with
  | nil => exact List.Perm.refl _
  | cons y t ih =>
    by_cases h : lexLe x y = true
    · simp [insSorted, h]
    · simp only [insSorted, h]
      simp only [Bool.false_eq_true, if_false]
      exact (ih.cons y).trans (List.Perm.swap x y t)

theorem sortIds_perm : ∀ l, (sortIds l).Perm l := by
  intro l
  induction l with
  | nil => exact List.Perm.refl _
  | cons x t ih => exact (insSorted_perm x (sortIds t)).trans (ih.cons x)

theorem indexUnion_mem (a b : List (List Char)) (x : List Char) :
    x ∈ indexUnion a b ↔ x ∈ a ∨ x ∈ b := by
  unfold indexUnion
  split_ifs with h1 h2 h3
  · simp [h1]
  · subst h2; simp
  · simp [h3]
  · rw [(sortIds_perm _).mem_iff]
    simp only [List.mem_append, List.mem_filter, decide_eq_true_eq]
    by_cases hx : x ∈ a <;> simp [hx]

theorem indexUnion_nodup (a b : List (List Char)) (ha : a.Nodup) (hb : b.Nodup) :
    (indexUnion a b).Nodup := by
  unfold indexUnion
  split_ifs with h1 h2 h3
  · exact ha
  · exact ha
  · exact hb
  · refine ((sortIds_perm _).nodup_iff).mpr ?_
    refine List.Nodup.append ha (hb.filter _) ?_
    intro x hxa hxf
    have := (List.mem_filter.mp hxf).2
    simp only [decide_eq_true_eq] at this
    exact this hxa

theorem foldl_union_mem : ∀ (ts : List DF) (acc : List (List Char)) (x : List Char),
    x ∈ ts.foldl (fun acc t => indexUnion acc (idsOf t)) acc ↔
      x ∈ acc ∨ ∃ t ∈ ts, x ∈ idsOf t := by
  intro ts
  induction ts with
  | nil => intro acc x; simp
  | cons t ts' ih =>
    intro acc x
    rw [List.foldl_cons, ih, indexUnion_mem]
    constructor
    · rintro ((h | h) | ⟨t', ht', hx⟩)
      · exact Or.inl h
      · exact Or.inr ⟨t, by simp, h⟩
      · exact Or.inr ⟨t', by simp [ht'], hx⟩
    · rintro (h | ⟨t', ht', hx⟩)
      · exact Or.inl (Or.inl h)
      · rcases List.mem_cons.mp ht' with h1 | h1
        · exact Or.inl (Or.inr (h1 ▸ hx))
        · exact Or.inr ⟨t', h1, hx⟩

theorem foldl_union_nodup : ∀ (ts : List DF) (acc : List (List Char)), acc.Nodup →
    (∀ t ∈ ts, (idsOf t).Nodup) →
    (ts.foldl (fun acc t => indexUnion acc (idsOf t)) acc).Nodup := by
  intro ts
  induction ts with
  | nil => intro acc h _; exact h
  | cons t ts' ih =>
    intro acc h hts
    rw [List.foldl_cons]
    exact ih _ (indexUnion_nodup _ _ h (hts t (by simp)))
      (fun t' ht' => hts t' (by simp [ht']))

/-! ## Pipeline step shapes -/

theorem setIndexFirstColE_ok_of (t : DF) (h : t.cols ≠ []) :
    setIndexFirstColE t = .ok (setIndexFirstCol t) := by
  simp [setIndexFirstColE, h]

theorem reindexE_ok_of (u : List (List Char)) (t : DF) (h : t.index.Nodup) :
    reindexE u t = .ok (reindexDF u t) := by
  simp [reindexE, h]

theorem mapEx_exists_error {α β ε : Type} (f : α → Except ε β) : ∀ l : List α,
    (∃ a ∈ l, ∃ e, f a = .error e) → ∃ e', mapEx f l = .error e' := by
  intro l
  induction l with
  | nil => rintro ⟨a, ha, _⟩; simp at ha
  | cons a t ih =>
    rintro ⟨a', ha', e, he⟩
    cases hfa : f a with
    | error e0 => exact ⟨e0, by rw [mapEx_cons, hfa]⟩
    | ok b =>
      rcases List.mem_cons.mp ha' with h1 | h1
      · subst h1; rw [hfa] at he; exact absurd he (by simp)
      · obtain ⟨e', he'⟩ := ih ⟨a', h1, e, he⟩
        exact ⟨e', by rw [mapEx_cons, hfa, he']⟩

theorem mapEx_getColE_error (col : String) : ∀ l : List DF,
    (∃ t ∈ l, col ∉ t.cols) →
    mapEx (fun t => getColE t col) l = .error (.keyError col) := by
  intro l
  induction l with
  | nil => rintro ⟨t, ht, _⟩; simp at ht
  | cons t ts ih =>
    rintro ⟨t', ht', hc⟩
    by_cases hmem : col ∈ t.cols
    · rw [mapEx_cons]
      rw [getColE_ok_of_mem t col hmem]
      have hex : ∃ t ∈ ts, col ∉ t.cols := by
        rcases List.mem_cons.mp ht' with h1 | h1
        · exact absurd (h1 ▸ hmem) hc
        · exact ⟨t', h1, hc⟩
      rw [ih hex]
    · rw [mapEx_cons, getColE_error_of_not_mem t col hmem]

theorem fillStepDF_ok (al : List DF) (c : DF) (col : String) (c' : DF)
    (h : fillStepDF al c col = .ok c') :
    (∀ t ∈ al, col ∈ t.cols) ∧
    c' = setColD c col ((List.range c.index.length).map (fun k =>
      fillMerge ((al.map (fun t => getColD t col)).map (fun cv => cv.getD k Val.na)))) := by
  unfold fillStepDF at h
  cases hm : mapEx (fun t => getColE t col) al with
  | error e => rw [hm] at h; exact absurd h (by simp)
  | ok cv =>
    rw [hm] at h
    have h2 : Except.ok (setColD c col ((List.range c.index.length).map (fun k =>
        fillMerge (cv.map (fun cv => cv.getD k Val.na))))) = Except.ok c' := h
    injection h2 with h3
    have hmem : ∀ t ∈ al, col ∈ t.cols := by
      intro t ht
      obtain ⟨b, hb⟩ := mapEx_ok_forall _ al cv hm t ht
      exact (getColE_ok_mem t col b hb).1
    have hcv : cv = al.map (fun t => getColD t col) := by
      have h4 := mapEx_ok_of_forall (fun t => getColE t col) (fun t => getColD t col) al
        (fun t ht => getColE_ok_of_mem t col (hmem t ht))
      rw [hm] at h4
      exact Except.ok.inj h4
    exact ⟨hmem, by rw [← h3, hcv]⟩

theorem libStepDF_ok (al : List DF) (c : DF) (col : String) (c' : DF)
    (h : libStepDF al c col = .ok c') :
    ((getColD c col).all (fun v => isLib v) = true ∧ c' = c) ∨
    ((∀ t ∈ al, col ∈ t.cols) ∧
     c' = setColD c col ((List.range c.index.length).map (fun k =>
       let v := (getColD c col).getD k Val.na
       if isLib v then v
       else (find_lib ((al.map (fun t => getColD t col)).map
         (fun cv => cv.getD k Val.na))).getD Val.na))) := by
  by_cases hall : (getColD c col).all (fun v => isLib v) = true
  · left
    simp only [libStepDF, hall, if_true] at h
    injection h with h2
    exact ⟨hall, h2.symm⟩
  · right
    simp only [libStepDF, hall, if_false, Bool.false_eq_true] at h
    cases hm : mapEx (fun t => getColE t col) al with
    | error e => rw [hm] at h; exact absurd h (by simp)
    | ok cv =>
      rw [hm] at h
      have h2 : Except.ok (setColD c col ((List.range c.index.length).map (fun k =>
          let v := (getColD c col).getD k Val.na
          if isLib v then v
          else (find_lib (cv.map (fun cv => cv.getD k Val.na))).getD Val.na))) = Except.ok c' := h
      injection h2 with h3
      have hmem : ∀ t ∈ al, col ∈ t.cols := by
        intro t ht
        obtain ⟨b, hb⟩ := mapEx_ok_forall _ al cv hm t ht
        exact (getColE_ok_mem t col b hb).1
      have hcv : cv = al.map (fun t => getColD t col) := by
        have h4 := mapEx_ok_of_forall (fun t => getColE t col) (fun t => getColD t col) al
          (fun t ht => getColE_ok_of_mem t col (hmem t ht))
        rw [hm] at h4
        exact Except.ok.inj h4
      exact ⟨hmem, by rw [← h3, hcv]⟩

theorem fastqStepDF_ok (al : List DF) (c : DF) (col : String) (c' : DF)
    (h : fastqStepDF al c col = .ok c') :
    (∀ t ∈ al, col ∈ t.cols) ∧
    c' = setColD c col ((List.range c.index.length).map (fun k =>
      fastqMergeCells ((al.map (fun t => getColD t col)).map (fun cv => cv.getD k Val.na)))) := by
  unfold fastqStepDF at h
  cases hm : mapEx (fun t => getColE t col) al with
  | error e => rw [hm] at h; exact absurd h (by simp)
  | ok cv =>
    rw [hm] at h
    have h2 : Except.ok (setColD c col ((List.range c.index.length).map (fun k =>
        fastqMergeCells (cv.map (fun cv => cv.getD k Val.na))))) = Except.ok c' := h
    injection h2 with h3
    have hmem : ∀ t ∈ al, col ∈ t.cols := by
      intro t ht
      obtain ⟨b, hb⟩ := mapEx_ok_forall _ al cv hm t ht
      exact (getColE_ok_mem t col b hb).1
    have hcv : cv = al.map (fun t => getColD t col) := by
      have h4 := mapEx_ok_of_forall (fun t => getColE t col) (fun t => getColD t col) al
        (fun t ht => getColE_ok_of_mem t col (hmem t ht))
      rw [hm] at h4
      exact Except.ok.inj h4
    exact ⟨hmem, by rw [← h3, hcv]⟩

theorem stepCol_ok (al : List DF) (c : DF) (col : String) (c' : DF)
    (h : stepCol al c col = .ok c') :
    c' = c ∨ ((col ∈ libColsList ∨ col ∈ fastqColsList) ∧ (∀ t ∈ al, col ∈ t.cols) ∧
      ∃ vals, c' = setColD c col vals) := by
  unfold stepCol at h
  by_cases h1 : col ∈ libColsList
  · rw [if_pos h1] at h
    rcases libStepDF_ok al c col c' h with ⟨_, h2⟩ | ⟨hm, h2⟩
    · exact Or.inl h2
    · exact Or.inr ⟨Or.inl h1, hm, _, h2⟩
  · rw [if_neg h1] at h
    by_cases h2 : col ∈ fastqColsList
    · rw [if_pos h2] at h
      obtain ⟨hm, h3⟩ := fastqStepDF_ok al c col c' h
      exact Or.inr ⟨Or.inr h2, hm, _, h3⟩
    · rw [if_neg h2] at h
      injection h with h3
      exact Or.inl h3.symm

/-! ## Destructuring a successful combine_table run -/

theorem combine_error_c0 (t0 : DF) (rest : List DF) (h : t0.cols = []) :
    combine_table (t0 :: rest) = .error .indexError := by
  simp [combine_table, setIndexFirstColE, h]

theorem combine_ok_destruct (t0 : DF) (rest : List DF) (out : DF)
    (hok : combine_table (t0 :: rest) = .ok out) :
    t0.cols ≠ [] ∧ (idsOf t0).Nodup ∧ (∀ t ∈ rest, t.cols ≠ [] ∧ (idsOf t).Nodup) ∧
    ∃ c1, foldlEx (fillStepDF (alignedAll (t0 :: rest)))
        (setIdCol (reindexDF (unionAll (t0 :: rest)) (setIndexFirstCol t0))) fillColsList = .ok c1
      ∧ foldlEx (stepCol (alignedAll (t0 :: rest))) c1 c1.cols = .ok out := by
  have hc0 : t0.cols ≠ [] := by
    intro h
    rw [combine_error_c0 t0 rest h] at hok
    exact absurd hok (by simp)
  have h0 : setIndexFirstColE t0 = .ok (setIndexFirstCol t0) := setIndexFirstColE_ok_of t0 hc0
  simp only [combine_table, h0] at hok
  have hcr : ∀ t ∈ rest, t.cols ≠ [] := by
    intro t ht hcol
    obtain ⟨e, he⟩ := mapEx_exists_error setIndexFirstColE rest
      ⟨t, ht, .indexError, by simp [setIndexFirstColE, hcol]⟩
    rw [he] at hok
    exact absurd hok (by simp)
  have h1 : mapEx setIndexFirstColE rest = .ok (rest.map setIndexFirstCol) :=
    mapEx_ok_of_forall _ _ rest (fun t ht => setIndexFirstColE_ok_of t (hcr t ht))
  simp only [h1] at hok
  have hu : (rest.map setIndexFirstCol).foldl (fun acc t => indexUnion acc t.index)
      (setIndexFirstCol t0).index = unionAll (t0 :: rest) := by
    rw [List.foldl_map]
    simp [unionAll]
  rw [hu] at hok
  have hnd0 : (idsOf t0).Nodup := by
    by_contra hnd
    have herr : reindexE (unionAll (t0 :: rest)) (setIndexFirstCol t0) = .error .valueError := by
      simp [reindexE, hnd]
    rw [herr] at hok
    exact absurd hok (by simp)
  have h2 : reindexE (unionAll (t0 :: rest)) (setIndexFirstCol t0) =
      .ok (reindexDF (unionAll (t0 :: rest)) (setIndexFirstCol t0)) :=
    reindexE_ok_of _ _ (by simpa using hnd0)
  simp only [h2] at hok
  have hndr : ∀ t ∈ rest, (idsOf t).Nodup := by
    intro t ht
    by_contra hnd
    obtain ⟨e, he⟩ := mapEx_exists_error (reindexE (unionAll (t0 :: rest)))
      (rest.map setIndexFirstCol)
      ⟨setIndexFirstCol t, List.mem_map_of_mem _ ht, .valueError, by simp [reindexE, hnd]⟩
    rw [he] at hok
    exact absurd hok (by simp)
  have h3 : mapEx (reindexE (unionAll (t0 :: rest))) (rest.map setIndexFirstCol) =
      .ok (rest.map (fun t => reindexDF (unionAll (t0 :: rest)) (setIndexFirstCol t))) := by
    have h4 := mapEx_ok_of_forall (reindexE (unionAll (t0 :: rest)))
      (fun t => reindexDF (unionAll (t0 :: rest)) t) (rest.map setIndexFirstCol)
      (fun t ht => by
        obtain ⟨t', ht', rfl⟩ := List.mem_map.mp ht
        exact reindexE_ok_of _ _ (by simpa using hndr t' ht'))
    rw [List.map_map] at h4
    simpa [Function.comp] using h4
  simp only [h3] at hok
  have hal : setIdCol (reindexDF (unionAll (t0 :: rest)) (setIndexFirstCol t0)) ::
      (rest.map (fun t => reindexDF (unionAll (t0 :: rest)) (setIndexFirstCol t))).map setIdCol =
      alignedAll (t0 :: rest) := by
    simp [alignedAll, List.map_map, Function.comp]
  rw [hal] at hok
  cases hf : foldlEx (fillStepDF (alignedAll (t0 :: rest)))
      (setIdCol (reindexDF (unionAll (t0 :: rest)) (setIndexFirstCol t0))) fillColsList with
  | error e => rw [hf] at hok; exact absurd hok (by simp)
  | ok c1 =>
    rw [hf] at hok
    have hok2 : foldlEx (stepCol (alignedAll (t0 :: rest))) c1 c1.cols = .ok out := hok
    exact ⟨hc0, hnd0, fun t ht => ⟨hcr t ht, hndr t ht⟩, c1, rfl, hok2⟩

/-! ## Claim C1: the identifier column of the combined table -/

/-- C1 (amended): for a successful run, the identifier column of the combined
table holds exactly the union index — every distinct identifier of
every input table exactly once — but in the order computed by pandas
`Index.union` (which sorts the labels whenever a later table
contributes a differing index), not in first-seen order.  The
hypotheses say the first table is rectangular and its first column is
not one of the merged columns. -/
theorem C1_identifier_column (t0 : DF) (rest : List DF) (out : DF)
    (hrect : t0.data.length = t0.cols.length)
    (hhead : t0.cols.headD "" ∉ fillColsList ∧ t0.cols.headD "" ∉ libColsList ∧
      t0.cols.headD "" ∉ fastqColsList)
    (hok : combine_table (t0 :: rest) = Except.ok out) :
    out.index = unionAll (t0 :: rest) ∧
    out.data.headD [] = (unionAll (t0 :: rest)).map Val.str ∧
    (unionAll (t0 :: rest)).Nodup ∧
    (∀ s, s ∈ unionAll (t0 :: rest) ↔ ∃ t ∈ t0 :: rest, s ∈ idsOf t) := by
  obtain ⟨hc0, hnd0, hrest, c1, hfill, hloop⟩ := combine_ok_destruct t0 rest out hok
  have hA0mem : setIdCol (reindexDF (unionAll (t0 :: rest)) (setIndexFirstCol t0)) ∈
      alignedAll (t0 :: rest) := by
    exact List.mem_map.mpr ⟨t0, by simp, rfl⟩
  have hQ0 : (setIdCol (reindexDF (unionAll (t0 :: rest)) (setIndexFirstCol t0))).cols = t0.cols ∧
      (setIdCol (reindexDF (unionAll (t0 :: rest)) (setIndexFirstCol t0))).index =
        unionAll (t0 :: rest) ∧
      (setIdCol (reindexDF (unionAll (t0 :: rest)) (setIndexFirstCol t0))).data.headD [] =
        (unionAll (t0 :: rest)).map Val.str := by
    refine ⟨by simp, by simp, ?_⟩
    have hdne : (reindexDF (unionAll (t0 :: rest)) (setIndexFirstCol t0)).data ≠ [] := by
      have hlen : 0 < t0.data.length := by
        rw [hrect]
        exact List.length_pos.mpr hc0
      simp only [reindexDF]
      intro hcon
      rw [List.map_eq_nil_iff] at hcon
      simp only [data_setIndexFirstCol] at hcon
      rw [hcon] at hlen
      simp at hlen
    show ((reindexDF (unionAll (t0 :: rest)) (setIndexFirstCol t0)).data.set 0
      ((reindexDF (unionAll (t0 :: rest)) (setIndexFirstCol t0)).index.map Val.str)).headD [] = _
    rw [headD_set_zero _ _ _ hdne]
    simp
  have hQfillStep : ∀ (c : DF) (col : String) (c' : DF), col ∈ fillColsList →
      (c.cols = t0.cols ∧ c.index = unionAll (t0 :: rest) ∧
        c.data.headD [] = (unionAll (t0 :: rest)).map Val.str) →
      fillStepDF (alignedAll (t0 :: rest)) c col = .ok c' →
      (c'.cols = t0.cols ∧ c'.index = unionAll (t0 :: rest) ∧
        c'.data.headD [] = (unionAll (t0 :: rest)).map Val.str) := by
    intro c col c' hcol hQ hstep
    obtain ⟨hmem, hc'⟩ := fillStepDF_ok _ c col c' hstep
    have hcolc : col ∈ c.cols := by
      rw [hQ.1]
      simpa using hmem _ hA0mem
    have hne : col ≠ c.cols.headD "" := by
      rw [hQ.1]
      intro he
      exact hhead.1 (he ▸ hcol)
    subst hc'
    exact ⟨by rw [setColD_cols _ _ _ hcolc, hQ.1], by rw [setColD_index, hQ.2.1],
      by rw [headD_data_setColD _ _ _ hcolc hne, hQ.2.2]⟩
  have hQloopStep : ∀ (c : DF) (col : String) (c' : DF),
      (c.cols = t0.cols ∧ c.index = unionAll (t0 :: rest) ∧
        c.data.headD [] = (unionAll (t0 :: rest)).map Val.str) →
      stepCol (alignedAll (t0 :: rest)) c col = .ok c' →
      (c'.cols = t0.cols ∧ c'.index = unionAll (t0 :: rest) ∧
        c'.data.headD [] = (unionAll (t0 :: rest)).map Val.str) := by
    intro c col c' hQ hstep
    rcases stepCol_ok _ c col c' hstep with rfl | ⟨hin, hmem, vals, rfl⟩
    · exact hQ
    · have hcolc : col ∈ c.cols := by
        rw [hQ.1]
        simpa using hmem _ hA0mem
      have hne : col ≠ c.cols.headD "" := by
        rw [hQ.1]
        intro he
        rcases hin with h | h
        · exact hhead.2.1 (he ▸ h)
        · exact hhead.2.2 (he ▸ h)
      exact ⟨by rw [setColD_cols _ _ _ hcolc, hQ.1], by rw [setColD_index, hQ.2.1],
        by rw [headD_data_setColD _ _ _ hcolc hne, hQ.2.2]⟩
  have hQc1 := foldlEx_inv fillColsList _ c1 hfill hQ0
    (fun b a b' _ hq hf => hQfillStep b a b' (by assumption) hq hf)
  have hQout := foldlEx_inv c1.cols c1 out hloop hQc1
    (fun b a b' _ hq hf => hQloopStep b a b' hq hf)
  refine ⟨hQout.2.1, hQout.2.2, ?_, ?_⟩
  · show ((rest.foldl (fun acc t => indexUnion acc (idsOf t)) (idsOf t0))).Nodup
    exact foldl_union_nodup rest (idsOf t0) hnd0 (fun t ht => (hrest t ht).2)
  · intro s
    show s ∈ rest.foldl (fun acc t => indexUnion acc (idsOf t)) (idsOf t0) ↔ _
    rw [foldl_union_mem]
    constructor
    · rintro (h | ⟨t, ht, hx⟩)
      · exact ⟨t0, by simp, h⟩
      · exact ⟨t, by simp [ht], hx⟩
    · rintro ⟨t, ht, hx⟩
      rcases List.mem_cons.mp ht with h1 | h1
      · exact Or.inl (h1 ▸ hx)
      · exact Or.inr ⟨t, h1, hx⟩

theorem C1_identifier_column_w :
    dfOutAB.data.headD [] = (unionAll [dfA, dfB]).map Val.str ∧ (unionAll [dfA, dfB]).Nodup :=
  have h := C1_identifier_column dfA [dfB] dfOutAB (by decide) (by decide) (by decide)
  ⟨h.2.1, h.2.2.1⟩

/-- C1 counterexample: with first-table identifiers "b","a" and a
second table containing "c","a", the combined identifier column is the
*sorted* union "a","b","c", not the first-seen order "b","a","c" the
claim asserts. -/
theorem C1_counterexample :
    (combine_table [dfA, dfB]).toOption.map (fun d => d.data.headD []) =
      some [Val.str "a".data, Val.str "b".data, Val.str "c".data] ∧
    [Val.str "a".data, Val.str "b".data, Val.str "c".data] ≠
      [Val.str "b".data, Val.str "a".data, Val.str "c".data] := by decide

/-! ## Claim C8: a configured column absent from a non-first table -/

/-- C8 (amended): a configured fill column ("Genome" is the first one
processed) absent from *any* input table — first or not — is fatal: the
fill loop's read of that table raises `KeyError` and no combined table
is produced.  Absence from a non-first table is not tolerated. -/
theorem C8_missing_genome (t0 : DF) (rest : List DF)
    (hcols : ∀ t ∈ t0 :: rest, t.cols ≠ [])
    (hids : ∀ t ∈ t0 :: rest, (idsOf t).Nodup)
    (hmiss : ∃ t ∈ t0 :: rest, "Genome" ∉ t.cols) :
    combine_table (t0 :: rest) = Except.error (PyError.keyError "Genome") := by
  have h0 := setIndexFirstColE_ok_of t0 (hcols t0 (by simp))
  have h1 : mapEx setIndexFirstColE rest = .ok (rest.map setIndexFirstCol) :=
    mapEx_ok_of_forall _ _ rest (fun t ht => setIndexFirstColE_ok_of t (hcols t (by simp [ht])))
  have hu : (rest.map setIndexFirstCol).foldl (fun acc t => indexUnion acc t.index)
      (setIndexFirstCol t0).index = unionAll (t0 :: rest) := by
    rw [List.foldl_map]
    simp [unionAll]
  have h2 := reindexE_ok_of (unionAll (t0 :: rest)) (setIndexFirstCol t0)
    (by simpa using hids t0 (by simp))
  have h3 : mapEx (reindexE (unionAll (t0 :: rest))) (rest.map setIndexFirstCol) =
      .ok (rest.map (fun t => reindexDF (unionAll (t0 :: rest)) (setIndexFirstCol t))) := by
    have h4 := mapEx_ok_of_forall (reindexE (unionAll (t0 :: rest)))
      (fun t => reindexDF (unionAll (t0 :: rest)) t) (rest.map setIndexFirstCol)
      (fun t ht => by
        obtain ⟨t', ht', rfl⟩ := List.mem_map.mp ht
        exact reindexE_ok_of _ _ (by simpa using hids t' (by simp [ht'])))
    rw [List.map_map] at h4
    simpa [Function.comp] using h4
  have hal : setIdCol (reindexDF (unionAll (t0 :: rest)) (setIndexFirstCol t0)) ::
      (rest.map (fun t => reindexDF (unionAll (t0 :: rest)) (setIndexFirstCol t))).map setIdCol =
      alignedAll (t0 :: rest) := by
    simp [alignedAll, List.map_map, Function.comp]
  have hfillerr : fillStepDF (alignedAll (t0 :: rest))
      (setIdCol (reindexDF (unionAll (t0 :: rest)) (setIndexFirstCol t0))) "Genome" =
      .error (.keyError "Genome") := by
    unfold fillStepDF
    rw [mapEx_getColE_error "Genome" (alignedAll (t0 :: rest)) ?ex]
    case ex =>
      obtain ⟨t, ht, hG⟩ := hmiss
      refine ⟨setIdCol (reindexDF (unionAll (t0 :: rest)) (setIndexFirstCol t)),
        List.mem_map.mpr ⟨t, ht, rfl⟩, by simpa using hG⟩
  have hfold : foldlEx (fillStepDF (alignedAll (t0 :: rest)))
      (setIdCol (reindexDF (unionAll (t0 :: rest)) (setIndexFirstCol t0))) fillColsList =
      .error (.keyError "Genome") := by
    have he : fillColsList = "Genome" :: ["PKR", "R1_Subset", "whitelist"] := rfl
    rw [he]
    exact foldlEx_cons_error _ hfillerr
  simp only [combine_table, h0, h1, hu, h2, h3, hal, hfold]

theorem C8_missing_genome_w :
    combine_table [dfA, dfG] = Except.error (PyError.keyError "Genome") :=
  C8_missing_genome dfA [dfG] (by decide) (by decide) (by decide)

/-- C8 counterexample: the second table `dfG` lacks the configured fill
column "Genome"; the program raises `KeyError` instead of tolerating
the absence, and no combined table is produced. -/
theorem C8_counterexample :
    combine_table [dfA, dfG] = Except.error (PyError.keyError "Genome") ∧
    (combine_table [dfA, dfG]).toOption.isSome = false := by decide

/-! ## Claim C10: columns outside the merge sets are untouched -/

/-- C10: for a successful run, any column of the first table that is
not a fill, library, or fastq column comes out of the pipeline exactly
equal to the aligned first table's column (missing for samples absent
from the first table, identifier column rewritten to the union index);
cell values from later tables never influence it. -/
theorem C10_untouched_columns (t0 : DF) (rest : List DF) (out : DF) (col : String)
    (hok : combine_table (t0 :: rest) = Except.ok out)
    (_hcol : col ∈ t0.cols)
    (h1 : col ∉ fillColsList) (h2 : col ∉ libColsList) (h3 : col ∉ fastqColsList) :
    getColD out col =
      getColD (setIdCol (reindexDF (unionAll (t0 :: rest)) (setIndexFirstCol t0))) col := by
  obtain ⟨hc0, hnd0, hrest, c1, hfill, hloop⟩ := combine_ok_destruct t0 rest out hok
  have hA0mem : setIdCol (reindexDF (unionAll (t0 :: rest)) (setIndexFirstCol t0)) ∈
      alignedAll (t0 :: rest) :=
    List.mem_map.mpr ⟨t0, by simp, rfl⟩
  have hQ0 : (setIdCol (reindexDF (unionAll (t0 :: rest)) (setIndexFirstCol t0))).cols = t0.cols ∧
      getColD (setIdCol (reindexDF (unionAll (t0 :: rest)) (setIndexFirstCol t0))) col =
        getColD (setIdCol (reindexDF (unionAll (t0 :: rest)) (setIndexFirstCol t0))) col :=
    ⟨by simp, rfl⟩
  have hQfillStep : ∀ (c : DF) (col' : String) (c' : DF), col' ∈ fillColsList →
      (c.cols = t0.cols ∧ getColD c col =
        getColD (setIdCol (reindexDF (unionAll (t0 :: rest)) (setIndexFirstCol t0))) col) →
      fillStepDF (alignedAll (t0 :: rest)) c col' = .ok c' →
      (c'.cols = t0.cols ∧ getColD c' col =
        getColD (setIdCol (reindexDF (unionAll (t0 :: rest)) (setIndexFirstCol t0))) col) := by
    intro c col' c' hcol' hQ hstep
    obtain ⟨hmem, hc'⟩ := fillStepDF_ok _ c col' c' hstep
    have hcolc : col' ∈ c.cols := by
      rw [hQ.1]
      simpa using hmem _ hA0mem
    have hne : col ≠ col' := fun he => h1 (he ▸ hcol')
    subst hc'
    exact ⟨by rw [setColD_cols _ _ _ hcolc, hQ.1],
      by rw [getColD_setColD_ne _ _ _ _ hcolc hne, hQ.2]⟩
  have hQloopStep : ∀ (c : DF) (col' : String) (c' : DF),
      (c.cols = t0.cols ∧ getColD c col =
        getColD (setIdCol (reindexDF (unionAll (t0 :: rest)) (setIndexFirstCol t0))) col) →
      stepCol (alignedAll (t0 :: rest)) c col' = .ok c' →
      (c'.cols = t0.cols ∧ getColD c' col =
        getColD (setIdCol (reindexDF (unionAll (t0 :: rest)) (setIndexFirstCol t0))) col) := by
    intro c col' c' hQ hstep
    rcases stepCol_ok _ c col' c' hstep with rfl | ⟨hin, hmem, vals, rfl⟩
    · exact hQ
    · have hcolc : col' ∈ c.cols := by
        rw [hQ.1]
        simpa using hmem _ hA0mem
      have hne : col ≠ col' := by
        intro he
        rcases hin with h | h
        · exact h2 (he ▸ h)
        · exact h3 (he ▸ h)
      exact ⟨by rw [setColD_cols _ _ _ hcolc, hQ.1],
        by rw [getColD_setColD_ne _ _ _ _ hcolc hne, hQ.2]⟩
  have hQc1 := foldlEx_inv fillColsList _ c1 hfill hQ0
    (fun b a b' ha hq hf => hQfillStep b a b' ha hq hf)
  have hQout := foldlEx_inv c1.cols c1 out hloop hQc1
    (fun b a b' _ hq hf => hQloopStep b a b' hq hf)
  exact hQout.2

theorem C10_untouched_columns_w :
    getColD dfOutAB "s_id" =
      getColD (setIdCol (reindexDF (unionAll [dfA, dfB]) (setIndexFirstCol dfA))) "s_id" :=
  C10_untouched_columns dfA [dfB] dfOutAB "s_id" (by decide) (by decide) (by decide)
    (by decide) (by decide)

/-! ## Claim C2: fill-first-available columns -/

theorem getD_lt {α : Type} (l : List α) (n : Nat) (d : α) (h : n < l.length) :
    l.getD n d = l[n] := by
  rw [List.getD_eq_getElem?_getD, List.getElem?_eq_getElem h]
  rfl

theorem range_map_getD {α : Type} (l : List α) (n : Nat) (d : α) (h : l.length = n) :
    (List.range n).map (fun k => l.getD k d) = l := by
  refine (List.ext_getElem (by simp [h]) ?_).symm
  intro i h1 h2
  rw [List.getElem_map, List.getElem_range]
  exact (getD_lt l i d h1).symm

theorem getD_mem_of_lt {α : Type} (l : List α) (k : Nat) (d : α) (h : k < l.length) :
    l.getD k d ∈ l := by
  rw [getD_lt l k d h]
  exact List.getElem_mem h

theorem getColD_aligned_length (t : DF) (u : List (List Char)) (col : String)
    (hcol : col ∈ t.cols) (hrect : t.data.length = t.cols.length) :
    (getColD (setIdCol (reindexDF u (setIndexFirstCol t))) col).length = u.length := by
  obtain ⟨p, hp⟩ := posOf_mem col t.cols hcol
  have hplt : p < t.data.length := hrect ▸ posOf_lt_length col t.cols p hp
  have hget : getColD (setIdCol (reindexDF u (setIndexFirstCol t))) col =
      (setIdCol (reindexDF u (setIndexFirstCol t))).data.getD p [] := by
    simp [getColD, hp]
  rw [hget]
  show (((reindexDF u (setIndexFirstCol t)).data.set 0
    ((reindexDF u (setIndexFirstCol t)).index.map Val.str)).getD p []).length = u.length
  cases p with
  | zero =>
    rw [getD_set_same _ _ _ _ (by simpa [reindexDF] using hplt)]
    simp
  | succ q =>
    rw [getD_set_ne _ _ _ _ _ (by omega)]
    have hlt : q + 1 < (reindexDF u (setIndexFirstCol t)).data.length := by
      simpa [reindexDF] using hplt
    rw [getD_lt _ _ _ hlt]
    simp [reindexDF]

/-- C2: for a successful run, every fill column of the combined table
holds, per sample, the first non-missing value among the aligned
tables' cells in input order, or the missing marker when every table is
missing there. -/
theorem C2_fill_first_available (t0 : DF) (rest : List DF) (out : DF) (col : String)
    (hrect : t0.data.length = t0.cols.length)
    (hok : combine_table (t0 :: rest) = Except.ok out)
    (hcol : col ∈ fillColsList) :
    getColD out col = (List.range (unionAll (t0 :: rest)).length).map (fun k =>
      (((alignedAll (t0 :: rest)).map (fun t => (getColD t col).getD k Val.na)).find?
        (fun v => !isNa v)).getD Val.na) := by
  obtain ⟨hc0, hnd0, hrest, c1, hfill, hloop⟩ := combine_ok_destruct t0 rest out hok
  have hA0mem : setIdCol (reindexDF (unionAll (t0 :: rest)) (setIndexFirstCol t0)) ∈
      alignedAll (t0 :: rest) :=
    List.mem_map.mpr ⟨t0, by simp, rfl⟩
  have hQ0 : (setIdCol (reindexDF (unionAll (t0 :: rest)) (setIndexFirstCol t0))).cols = t0.cols ∧
      (setIdCol (reindexDF (unionAll (t0 :: rest)) (setIndexFirstCol t0))).index =
        unionAll (t0 :: rest) ∧
      (setIdCol (reindexDF (unionAll (t0 :: rest)) (setIndexFirstCol t0))).data.length =
        t0.cols.length := by
    refine ⟨by simp, by simp, ?_⟩
    show ((reindexDF (unionAll (t0 :: rest)) (setIndexFirstCol t0)).data.set 0
      ((reindexDF (unionAll (t0 :: rest)) (setIndexFirstCol t0)).index.map Val.str)).length =
      t0.cols.length
    simp [reindexDF, hrect]
  have hQfillStep : ∀ (c : DF) (col' : String) (c' : DF), col' ∈ fillColsList →
      (c.cols = t0.cols ∧ c.index = unionAll (t0 :: rest) ∧ c.data.length = t0.cols.length) →
      fillStepDF (alignedAll (t0 :: rest)) c col' = .ok c' →
      (c'.cols = t0.cols ∧ c'.index = unionAll (t0 :: rest) ∧ c'.data.length = t0.cols.length) := by
    intro c col' c' _ hQ hstep
    obtain ⟨hmem, hc'⟩ := fillStepDF_ok _ c col' c' hstep
    have hcolc : col' ∈ c.cols := by
      rw [hQ.1]
      simpa using hmem _ hA0mem
    subst hc'
    exact ⟨by rw [setColD_cols _ _ _ hcolc, hQ.1], by rw [setColD_index, hQ.2.1],
      by rw [setColD_data_length _ _ _ hcolc, hQ.2.2]⟩
  have hEst : ∀ (c : DF) (c' : DF),
      (c.cols = t0.cols ∧ c.index = unionAll (t0 :: rest) ∧ c.data.length = t0.cols.length) →
      fillStepDF (alignedAll (t0 :: rest)) c col = .ok c' →
      getColD c' col = (List.range (unionAll (t0 :: rest)).length).map (fun k =>
        (((alignedAll (t0 :: rest)).map (fun t => (getColD t col).getD k Val.na)).find?
          (fun v => !isNa v)).getD Val.na) := by
    intro c c' hQ hstep
    obtain ⟨hmem, hc'⟩ := fillStepDF_ok _ c col c' hstep
    have hcolc : col ∈ c.cols := by
      rw [hQ.1]
      simpa using hmem _ hA0mem
    have hlen : c.data.length = c.cols.length := by
      rw [hQ.1]
      exact hQ.2.2
    subst hc'
    rw [getColD_setColD_same c col _ hcolc hlen, hQ.2.1]
    have hfun : (fun k => fillMerge (((alignedAll (t0 :: rest)).map
        (fun t => getColD t col)).map (fun cv => cv.getD k Val.na))) =
        (fun k => ((((alignedAll (t0 :: rest))).map
          (fun t => (getColD t col).getD k Val.na)).find? (fun v => !isNa v)).getD Val.na) := by
      funext k
      rw [List.map_map, fillMerge_eq_find]
      rfl
    rw [hfun]
  have hPres : ∀ (c : DF) (col' : String) (c' : DF), col' ∈ fillColsList → col' ≠ col →
      getColD c col = (List.range (unionAll (t0 :: rest)).length).map (fun k =>
        (((alignedAll (t0 :: rest)).map (fun t => (getColD t col).getD k Val.na)).find?
          (fun v => !isNa v)).getD Val.na) →
      (c.cols = t0.cols ∧ c.index = unionAll (t0 :: rest) ∧ c.data.length = t0.cols.length) →
      fillStepDF (alignedAll (t0 :: rest)) c col' = .ok c' →
      getColD c' col = (List.range (unionAll (t0 :: rest)).length).map (fun k =>
        (((alignedAll (t0 :: rest)).map (fun t => (getColD t col).getD k Val.na)).find?
          (fun v => !isNa v)).getD Val.na) := by
    intro c col' c' _ hne hP hQ hstep
    obtain ⟨hmem, hc'⟩ := fillStepDF_ok _ c col' c' hstep
    have hcolc : col' ∈ c.cols := by
      rw [hQ.1]
      simpa using hmem _ hA0mem
    subst hc'
    rw [getColD_setColD_ne _ _ _ _ hcolc (fun he => hne (he.symm))]
    exact hP
  have hmain := foldlEx_establish fillColsList col _ c1 hcol (by decide) hfill hQ0
    (fun b a b' ha hq hf => hQfillStep b a b' ha hq hf)
    (fun b b' hq hf => hEst b b' hq hf)
    (fun b a b' ha hne hp hq hf => hPres b a b' ha hne hp hq hf)
  have hd1 : ∀ x ∈ libColsList, x ∉ fillColsList := by decide
  have hd2 : ∀ x ∈ fastqColsList, x ∉ fillColsList := by decide
  have hout := foldlEx_inv (P := fun c =>
      (getColD c col = (List.range (unionAll (t0 :: rest)).length).map (fun k =>
        (((alignedAll (t0 :: rest)).map (fun t => (getColD t col).getD k Val.na)).find?
          (fun v => !isNa v)).getD Val.na)) ∧
      c.cols = t0.cols) c1.cols c1 out hloop ⟨hmain.1, hmain.2.1⟩ ?step
  case step =>
    intro b a b' _ hpq hf
    rcases stepCol_ok _ b a b' hf with rfl | ⟨hin, hmem, vals, rfl⟩
    · exact hpq
    · have hane : col ≠ a := by
        intro he
        rcases hin with h | h
        · exact hd1 a h (he ▸ hcol)
        · exact hd2 a h (he ▸ hcol)
      have hacols : a ∈ b.cols := by
        rw [hpq.2]
        simpa using hmem _ hA0mem
      exact ⟨by rw [getColD_setColD_ne _ _ _ _ hacols hane]; exact hpq.1,
        by rw [setColD_cols _ _ _ hacols]; exact hpq.2⟩
  exact hout.1

theorem C2_fill_first_available_w :
    getColD dfOutAB "Genome" = (List.range (unionAll [dfA, dfB]).length).map (fun k =>
      (((alignedAll [dfA, dfB]).map (fun t => (getColD t "Genome").getD k Val.na)).find?
        (fun v => !isNa v)).getD Val.na) :=
  C2_fill_first_available dfA [dfB] dfOutAB "Genome" (by decide) (by decide) (by decide)

/-! ## Claim C3: library reconciliation -/

/-- C3: for a successful run, each cell of a library column comes out
as follows: a cell of the (aligned) first table that already passes the
validity predicate is kept; a failing cell is replaced by the *last*
valid cell among all tables in input order — the first valid cell of
the reversed cell list — or by the missing marker when no table has a
valid cell there (no error is raised). -/
theorem C3_library_reconciliation (t0 : DF) (rest : List DF) (out : DF) (col : String)
    (hrect : t0.data.length = t0.cols.length)
    (hndc : t0.cols.Nodup)
    (hok : combine_table (t0 :: rest) = Except.ok out)
    (hcol : col ∈ libColsList) (hc0col : col ∈ t0.cols) :
    getColD out col = (List.range (unionAll (t0 :: rest)).length).map (fun k =>
      if isLib (((alignedAll (t0 :: rest)).map
          (fun t => (getColD t col).getD k Val.na)).headD Val.na) = true
      then ((alignedAll (t0 :: rest)).map (fun t => (getColD t col).getD k Val.na)).headD Val.na
      else ((((alignedAll (t0 :: rest)).map
        (fun t => (getColD t col).getD k Val.na)).reverse.find? isLib).getD Val.na)) := by
  obtain ⟨hc0, hnd0, hrest, c1, hfill, hloop⟩ := combine_ok_destruct t0 rest out hok
  have hA0mem : setIdCol (reindexDF (unionAll (t0 :: rest)) (setIndexFirstCol t0)) ∈
      alignedAll (t0 :: rest) :=
    List.mem_map.mpr ⟨t0, by simp, rfl⟩
  have hhead : ∀ k, ((alignedAll (t0 :: rest)).map
      (fun t => (getColD t col).getD k Val.na)).headD Val.na =
      (getColD (setIdCol (reindexDF (unionAll (t0 :: rest)) (setIndexFirstCol t0))) col).getD
        k Val.na := fun k => rfl
  -- invariant through the fill loop: frame + the lib column untouched
  have hQ0 : (setIdCol (reindexDF (unionAll (t0 :: rest)) (setIndexFirstCol t0))).cols = t0.cols ∧
      (setIdCol (reindexDF (unionAll (t0 :: rest)) (setIndexFirstCol t0))).index =
        unionAll (t0 :: rest) ∧
      (setIdCol (reindexDF (unionAll (t0 :: rest)) (setIndexFirstCol t0))).data.length =
        t0.cols.length := by
    refine ⟨by simp, by simp, ?_⟩
    show ((reindexDF (unionAll (t0 :: rest)) (setIndexFirstCol t0)).data.set 0
      ((reindexDF (unionAll (t0 :: rest)) (setIndexFirstCol t0)).index.map Val.str)).length =
      t0.cols.length
    simp [reindexDF, hrect]
  have hdf : ∀ x ∈ fillColsList, x ∉ libColsList := by decide
  have hQc1 := foldlEx_inv (P := fun c =>
      (c.cols = t0.cols ∧ c.index = unionAll (t0 :: rest) ∧ c.data.length = t0.cols.length) ∧
      getColD c col =
        getColD (setIdCol (reindexDF (unionAll (t0 :: rest)) (setIndexFirstCol t0))) col)
    fillColsList _ c1 hfill ⟨hQ0, rfl⟩ ?fillstep
  case fillstep =>
    intro b a b' ha hpq hf
    obtain ⟨hmem, hb'⟩ := fillStepDF_ok _ b a b' hf
    have hacols : a ∈ b.cols := by
      rw [hpq.1.1]
      simpa using hmem _ hA0mem
    have hane : col ≠ a := fun he => hdf a ha (he ▸ hcol)
    subst hb'
    exact ⟨⟨by rw [setColD_cols _ _ _ hacols, hpq.1.1], by rw [setColD_index, hpq.1.2.1],
        by rw [setColD_data_length _ _ _ hacols, hpq.1.2.2]⟩,
      by rw [getColD_setColD_ne _ _ _ _ hacols hane]; exact hpq.2⟩
  -- split the column loop at the single occurrence of this column
  have hcolc1 : col ∈ c1.cols := by rw [hQc1.1.1]; exact hc0col
  obtain ⟨l1, l2, hsplit⟩ := List.append_of_mem hcolc1
  have hndc1 : c1.cols.Nodup := by rw [hQc1.1.1]; exact hndc
  rw [hsplit] at hndc1
  have hcl2 : col ∉ l2 := (List.nodup_cons.mp (List.nodup_append.mp hndc1).2.1).1
  have hcl1 : col ∉ l1 := fun h => (List.nodup_append.mp hndc1).2.2 h (by simp)
  rw [hsplit, foldlEx_append] at hloop
  cases hm1 : foldlEx (stepCol (alignedAll (t0 :: rest))) c1 l1 with
  | error e => rw [hm1] at hloop; exact absurd hloop (by simp)
  | ok cmid =>
    rw [hm1] at hloop
    have hloop2 : foldlEx (stepCol (alignedAll (t0 :: rest))) cmid (col :: l2) = .ok out := hloop
    have hQmid := foldlEx_inv (P := fun c =>
        (c.cols = t0.cols ∧ c.index = unionAll (t0 :: rest) ∧ c.data.length = t0.cols.length) ∧
        getColD c col =
          getColD (setIdCol (reindexDF (unionAll (t0 :: rest)) (setIndexFirstCol t0))) col)
      l1 c1 cmid hm1 hQc1 ?l1step
    case l1step =>
      intro b a b' ha hpq hf
      rcases stepCol_ok _ b a b' hf with rfl | ⟨_, hmem, vals, rfl⟩
      · exact hpq
      · have hacols : a ∈ b.cols := by
          rw [hpq.1.1]
          simpa using hmem _ hA0mem
        have hane : col ≠ a := fun he => hcl1 (he ▸ ha)
        exact ⟨⟨by rw [setColD_cols _ _ _ hacols, hpq.1.1], by rw [setColD_index, hpq.1.2.1],
            by rw [setColD_data_length _ _ _ hacols, hpq.1.2.2]⟩,
          by rw [getColD_setColD_ne _ _ _ _ hacols hane]; exact hpq.2⟩
    cases hstep : stepCol (alignedAll (t0 :: rest)) cmid col with
    | error e => rw [foldlEx_cons_error l2 hstep] at hloop2; exact absurd hloop2 (by simp)
    | ok cx =>
      rw [foldlEx_cons_ok l2 hstep] at hloop2
      have hstep2 : libStepDF (alignedAll (t0 :: rest)) cmid col = .ok cx := by
        rwa [stepCol, if_pos hcol] at hstep
      have hlenA0 : (getColD (setIdCol (reindexDF (unionAll (t0 :: rest))
          (setIndexFirstCol t0))) col).length = (unionAll (t0 :: rest)).length :=
        getColD_aligned_length t0 (unionAll (t0 :: rest)) col hc0col hrect
      have hcolcm : col ∈ cmid.cols := by rw [hQmid.1.1]; exact hc0col
      have hlencm : cmid.data.length = cmid.cols.length := by
        rw [hQmid.1.1]
        exact hQmid.1.2.2
      have hP : getColD cx col = (List.range (unionAll (t0 :: rest)).length).map (fun k =>
          if isLib (((alignedAll (t0 :: rest)).map
              (fun t => (getColD t col).getD k Val.na)).headD Val.na) = true
          then ((alignedAll (t0 :: rest)).map
            (fun t => (getColD t col).getD k Val.na)).headD Val.na
          else ((((alignedAll (t0 :: rest)).map
            (fun t => (getColD t col).getD k Val.na)).reverse.find? isLib).getD Val.na)) := by
        rcases libStepDF_ok _ cmid col cx hstep2 with ⟨hall, rfl⟩ | ⟨_, rfl⟩
        · -- every cell already valid: the column is left untouched
          rw [hQmid.2]
          refine ((List.map_congr_left ?_).trans
            (range_map_getD _ (unionAll (t0 :: rest)).length Val.na hlenA0)).symm
          intro k hk
          rw [List.mem_range] at hk
          have hkl : k < (getColD (setIdCol (reindexDF (unionAll (t0 :: rest))
              (setIndexFirstCol t0))) col).length := by rw [hlenA0]; exact hk
          have hvmem : (getColD (setIdCol (reindexDF (unionAll (t0 :: rest))
              (setIndexFirstCol t0))) col).getD k Val.na ∈
              getColD (setIdCol (reindexDF (unionAll (t0 :: rest)) (setIndexFirstCol t0))) col :=
            getD_mem_of_lt _ k Val.na hkl
          have hvalid : isLib ((getColD (setIdCol (reindexDF (unionAll (t0 :: rest))
              (setIndexFirstCol t0))) col).getD k Val.na) = true := by
            have hall2 := List.all_eq_true.mp hall
            have hvmem2 : (getColD (setIdCol (reindexDF (unionAll (t0 :: rest))
                (setIndexFirstCol t0))) col).getD k Val.na ∈ getColD cx col := by
              rw [hQmid.2]
              exact hvmem
            have := hall2 _ hvmem2
            simpa using this
          rw [hhead k, if_pos hvalid]
        · -- some cell invalid: the column is rebuilt
          rw [getColD_setColD_same cmid col _ hcolcm hlencm, hQmid.1.2.1]
          have hfun : (fun k =>
              let v := (getColD cmid col).getD k Val.na
              if isLib v then v
              else (find_lib (((alignedAll (t0 :: rest)).map (fun t => getColD t col)).map
                (fun cv => cv.getD k Val.na))).getD Val.na) =
              (fun k =>
                if isLib (((alignedAll (t0 :: rest)).map
                    (fun t => (getColD t col).getD k Val.na)).headD Val.na) = true
                then ((alignedAll (t0 :: rest)).map
                  (fun t => (getColD t col).getD k Val.na)).headD Val.na
                else ((((alignedAll (t0 :: rest)).map
                  (fun t => (getColD t col).getD k Val.na)).reverse.find? isLib).getD Val.na)) := by
            funext k
            show (if isLib ((getColD cmid col).getD k Val.na) = true
                then (getColD cmid col).getD k Val.na
                else (find_lib (((alignedAll (t0 :: rest)).map (fun t => getColD t col)).map
                  (fun cv => cv.getD k Val.na))).getD Val.na) = _
            rw [hQmid.2, List.map_map, find_lib_eq_rev, hhead k]
            rfl
          rw [hfun]
      have hcxcols : cx.cols = t0.cols := by
        rcases stepCol_ok _ cmid col cx hstep with rfl | ⟨_, hmem, vals, rfl⟩
        · exact hQmid.1.1
        · rw [setColD_cols _ _ _ hcolcm]
          exact hQmid.1.1
      have hout := foldlEx_inv (P := fun c => getColD c col = getColD cx col ∧ c.cols = t0.cols)
        l2 cx out hloop2 ⟨rfl, hcxcols⟩ ?l2step
      case l2step =>
        intro b a b' ha hpq hf
        rcases stepCol_ok _ b a b' hf with rfl | ⟨_, hmem, vals, rfl⟩
        · exact hpq
        · have hacols : a ∈ b.cols := by
            rw [hpq.2]
            simpa using hmem _ hA0mem
          have hane : col ≠ a := fun he => hcl2 (he ▸ ha)
          exact ⟨by rw [getColD_setColD_ne _ _ _ _ hacols hane]; exact hpq.1,
            by rw [setColD_cols _ _ _ hacols]; exact hpq.2⟩
      rw [hout.1]
      exact hP

theorem C3_library_reconciliation_w :
    getColD dfOutAB "RNA_Lib" = (List.range (unionAll [dfA, dfB]).length).map (fun k =>
      if isLib (((alignedAll [dfA, dfB]).map
          (fun t => (getColD t "RNA_Lib").getD k Val.na)).headD Val.na) = true
      then ((alignedAll [dfA, dfB]).map
        (fun t => (getColD t "RNA_Lib").getD k Val.na)).headD Val.na
      else ((((alignedAll [dfA, dfB]).map
        (fun t => (getColD t "RNA_Lib").getD k Val.na)).reverse.find? isLib).getD Val.na)) :=
  C3_library_reconciliation dfA [dfB] dfOutAB "RNA_Lib" (by decide) (by decide) (by decide)
    (by decide) (by decide)
